import Mathlib

/-!
Verification of the JPEG violation-metadata extraction pipeline
(`convertor/app/core/jpeg_parser.py`, class `JpegParser`).

The Python source is shallowly embedded: bytes are `List Nat` (each element a
byte value `< 256`), Python `str` is `String`/`List Char`, `dict` results are
insertion-ordered association lists, exceptions are `Except String`, and the
wall-clock fallback of `_parse_timestamp` is an explicitly injected,
pre-formatted `now : String` parameter.  Every definition mirrors one Python
function of the source; library calls (`bytes.find`, `json.loads`,
`base64.b64encode`, codecs) are modelled faithfully at the level the
repository exercises them (JSON restricted to escape-free strings and integer
numerals, which is noted where it applies).
-/

/-! ### Byte-level scanning: `bytes.find` / `bytes.rfind` for a 2-byte marker -/

/-- `mark2 data b0 b1 i` holds iff the two-byte marker `b0 b1` occurs in
`data` at offset `i` (both bytes in bounds), i.e. Python
`data[i:i+2] == bytes([b0, b1])`. -/
def mark2 (data : List Nat) (b0 b1 : Nat) (i : Nat) : Bool :=
  (data[i]? == some b0) && (data[i + 1]? == some b1)

/-- Fuel-driven forward scan underlying `find2`; checks offsets
`pos, pos+1, …, pos+fuel-1` in order and returns the first marker hit. -/
def find2Aux (data : List Nat) (b0 b1 : Nat) : Nat → Nat → Option Nat
  | _, 0 => none
  | pos, fuel + 1 =>
    if mark2 data b0 b1 pos then some pos else find2Aux data b0 b1 (pos + 1) fuel

/-- Python `data.find(bytes([b0, b1]), pos)`: offset of the first occurrence of
the 2-byte marker at or after `pos`, `none` for Python's `-1`. -/
def find2 (data : List Nat) (b0 b1 : Nat) (pos : Nat) : Option Nat :=
  find2Aux data b0 b1 pos (data.length + 1 - pos)

/-- Downward scan underlying `rfind2`: checks offsets `k-1, k-2, …, 0` and
returns the first (i.e. overall last) marker hit. -/
def rfind2Aux (data : List Nat) (b0 b1 : Nat) : Nat → Option Nat
  | 0 => none
  | k + 1 => if mark2 data b0 b1 k then some k else rfind2Aux data b0 b1 k

/-- Python `data.rfind(bytes([b0, b1]))`: offset of the last occurrence of the
2-byte marker, `none` for Python's `-1`. -/
def rfind2 (data : List Nat) (b0 b1 : Nat) : Option Nat :=
  rfind2Aux data b0 b1 data.length

/-- Python slicing `data[a:b]` (with the usual clamping semantics). -/
def pySlice (data : List Nat) (a b : Nat) : List Nat :=
  (data.drop a).take (b - a)

/-! ### `base64.b64encode` (RFC 4648, standard alphabet, `=` padding) -/

/-- The standard base64 alphabet, index `n < 64` to character. -/
def b64chr (n : Nat) : Char :=
  if n < 26 then Char.ofNat (65 + n)
  else if n < 52 then Char.ofNat (97 + (n - 26))
  else if n < 62 then Char.ofNat (48 + (n - 52))
  else if n = 62 then '+' else '/'

/-- `base64.b64encode` on a byte list, as the character list of the ASCII
result (`.decode('utf-8')` of the Python call is the identity on it). -/
def b64encode : List Nat → List Char
  | [] => []
  | [a] => [b64chr (a / 4), b64chr (a % 4 * 16), '=', '=']
  | [a, b] => [b64chr (a / 4), b64chr (a % 4 * 16 + b / 16), b64chr (b % 16 * 4), '=']
  | a :: b :: c :: rest =>
    b64chr (a / 4) :: b64chr (a % 4 * 16 + b / 16) ::
      b64chr (b % 16 * 4 + c / 64) :: b64chr (c % 64) :: b64encode rest

/-! ### `JpegParser._extract_frames` and `JpegParser._extract_json` -/

/-- The scanning loop of `_extract_frames`, returning the `(start, end)`
offset pairs of the emitted frames: repeatedly find the next `FF D8` at or
after the cursor, then the next `FF D9` at or after that start; emit the pair
and move the cursor to `end + 2`.  `fuel` only bounds the iteration count and
is chosen large enough by `extractPairs`. -/
def extractPairsAux (data : List Nat) : Nat → Nat → List (Nat × Nat)
  | 0, _ => []
  | fuel + 1, pos =>
    match find2 data 0xFF 0xD8 pos with
    | none => []
    | some s =>
      match find2 data 0xFF 0xD9 s with
      | none => []
      | some e => (s, e) :: extractPairsAux data fuel (e + 2)

/-- The `(start, end)` offset pairs of the frames `_extract_frames` emits. -/
def extractPairs (data : List Nat) : List (Nat × Nat) :=
  extractPairsAux data (data.length + 1) 0

/-- `JpegParser._extract_frames`: each emitted frame is the byte range
`data[start : end + 2]`, base64-encoded to text. -/
def extract_frames (data : List Nat) : List String :=
  (extractPairs data).map (fun p => (b64encode (pySlice data p.1 (p.2 + 2))).asString)

/-- `JpegParser._extract_json`: everything strictly after the last `FF D9`
(2 bytes past its start); empty when the end marker never occurs. -/
def extract_json (data : List Nat) : List Nat :=
  match rfind2 data 0xFF 0xD9 with
  | some i => data.drop (i + 2)
  | none => []

/-! ### The multi-encoding decoder `JpegParser._decode_data` -/

/-- The whitespace set of Python `str.strip()` restricted to ASCII (the only
whitespace the pipeline's inputs contain). -/
def isPyWs (c : Char) : Bool :=
  c = ' ' || c = '\t' || c = '\n' || c = '\r' || c = '\x0b' || c = '\x0c'

/-- Python `str.strip()`: drop leading and trailing whitespace. -/
def pyStrip (l : List Char) : List Char :=
  ((l.dropWhile isPyWs).reverse.dropWhile isPyWs).reverse

/-- Strict UTF-8 decoding (Python `bytes.decode('utf-8')`): rejects stray
continuation bytes, overlong forms, surrogates and code points above
`0x10FFFF`. -/
def utf8Decode : List Nat → Option (List Char)
  | [] => some []
  | b :: rest =>
    if b < 0x80 then (utf8Decode rest).map (Char.ofNat b :: ·)
    else if b < 0xC2 then none
    else if b < 0xE0 then
      match rest with
      | b1 :: rest' =>
        if 0x80 ≤ b1 && b1 < 0xC0 then
          (utf8Decode rest').map (Char.ofNat ((b - 0xC0) * 64 + (b1 - 0x80)) :: ·)
        else none
      | _ => none
    else if b < 0xF0 then
      match rest with
      | b1 :: b2 :: rest' =>
        let lo1 := if b = 0xE0 then 0xA0 else 0x80
        let hi1 := if b = 0xED then 0xA0 else 0xC0
        if lo1 ≤ b1 && b1 < hi1 && 0x80 ≤ b2 && b2 < 0xC0 then
          (utf8Decode rest').map
            (Char.ofNat ((b - 0xE0) * 4096 + (b1 - 0x80) * 64 + (b2 - 0x80)) :: ·)
        else none
      | _ => none
    else if b < 0xF5 then
      match rest with
      | b1 :: b2 :: b3 :: rest' =>
        let lo1 := if b = 0xF0 then 0x90 else 0x80
        let hi1 := if b = 0xF4 then 0x90 else 0xC0
        if lo1 ≤ b1 && b1 < hi1 && 0x80 ≤ b2 && b2 < 0xC0 && 0x80 ≤ b3 && b3 < 0xC0 then
          (utf8Decode rest').map
            (Char.ofNat ((b - 0xF0) * 262144 + (b1 - 0x80) * 4096 +
              (b2 - 0x80) * 64 + (b3 - 0x80)) :: ·)
        else none
      | _ => none
    else none

/-- The cp1251 upper half (`0x80`–`0xBF`); `0x98` is unassigned and decodes to
`none`, every other byte to its Unicode code point. -/
def cp1251hi (b : Nat) : Option Nat :=
  if b = 0x80 then some 0x0402 else if b = 0x81 then some 0x0403
  else if b = 0x82 then some 0x201A else if b = 0x83 then some 0x0453
  else if b = 0x84 then some 0x201E else if b = 0x85 then some 0x2026
  else if b = 0x86 then some 0x2020 else if b = 0x87 then some 0x2021
  else if b = 0x88 then some 0x20AC else if b = 0x89 then some 0x2030
  else if b = 0x8A then some 0x0409 else if b = 0x8B then some 0x2039
  else if b = 0x8C then some 0x040A else if b = 0x8D then some 0x040C
  else if b = 0x8E then some 0x040B else if b = 0x8F then some 0x040F
  else if b = 0x90 then some 0x0452 else if b = 0x91 then some 0x2018
  else if b = 0x92 then some 0x2019 else if b = 0x93 then some 0x201C
  else if b = 0x94 then some 0x201D else if b = 0x95 then some 0x2022
  else if b = 0x96 then some 0x2013 else if b = 0x97 then some 0x2014
  else if b = 0x98 then none else if b = 0x99 then some 0x2122
  else if b = 0x9A then some 0x0459 else if b = 0x9B then some 0x203A
  else if b = 0x9C then some 0x045A else if b = 0x9D then some 0x045C
  else if b = 0x9E then some 0x045B else if b = 0x9F then some 0x045F
  else if b = 0xA0 then some 0x00A0 else if b = 0xA1 then some 0x040E
  else if b = 0xA2 then some 0x045E else if b = 0xA3 then some 0x0408
  else if b = 0xA4 then some 0x00A4 else if b = 0xA5 then some 0x0490
  else if b = 0xA6 then some 0x00A6 else if b = 0xA7 then some 0x00A7
  else if b = 0xA8 then some 0x0401 else if b = 0xA9 then some 0x00A9
  else if b = 0xAA then some 0x0404 else if b = 0xAB then some 0x00AB
  else if b = 0xAC then some 0x00AC else if b = 0xAD then some 0x00AD
  else if b = 0xAE then some 0x00AE else if b = 0xAF then some 0x0407
  else if b = 0xB0 then some 0x00B0 else if b = 0xB1 then some 0x00B1
  else if b = 0xB2 then some 0x0406 else if b = 0xB3 then some 0x0456
  else if b = 0xB4 then some 0x0491 else if b = 0xB5 then some 0x00B5
  else if b = 0xB6 then some 0x00B6 else if b = 0xB7 then some 0x00B7
  else if b = 0xB8 then some 0x0451 else if b = 0xB9 then some 0x2116
  else if b = 0xBA then some 0x0454 else if b = 0xBB then some 0x00BB
  else if b = 0xBC then some 0x0458 else if b = 0xBD then some 0x0405
  else if b = 0xBE then some 0x0455 else some 0x0457

/-- One byte of Python `bytes.decode('windows-1251')`. -/
def cp1251 (b : Nat) : Option Char :=
  if b < 0x80 then some (Char.ofNat b)
  else if b < 0xC0 then (cp1251hi b).map Char.ofNat
  else if b < 0x100 then some (Char.ofNat (0x410 + (b - 0xC0)))
  else none

/-- Python `bytes.decode('windows-1251')`: fails exactly when the unassigned
byte `0x98` occurs (or a non-byte value sneaks in). -/
def win1251Decode : List Nat → Option (List Char)
  | [] => some []
  | b :: rest =>
    match cp1251 b with
    | some c => (win1251Decode rest).map (c :: ·)
    | none => none

/-- Python `bytes.decode('latin-1')`: total on genuine bytes (`< 256`). -/
def latin1Decode : List Nat → Option (List Char)
  | [] => some []
  | b :: rest =>
    if b < 256 then (latin1Decode rest).map (Char.ofNat b :: ·) else none

/-- `JpegParser._decode_data` with the class constant
`ENCODINGS = ['utf-8', 'windows-1251', 'latin-1']`: return the first
successful decoding, stripped; raise `ParserError` if every encoding fails. -/
def decode_data (data : List Nat) : Except String (List Char) :=
  match utf8Decode data with
  | some s => .ok (pyStrip s)
  | none =>
    match win1251Decode data with
    | some s => .ok (pyStrip s)
    | none =>
      match latin1Decode data with
      | some s => .ok (pyStrip s)
      | none => .error "Failed to decode JSON data"

/-! ### The JSON value model and a `json.loads` parser

`json.loads` is modelled by a recursive-descent parser over `List Char`,
structural on a fuel argument (`3 * length + 3` always suffices, see below).
The grammar is the JSON subset this repository's metadata exercises: objects,
arrays, escape-free strings, integer numerals, `true`/`false`/`null`, with the
four JSON whitespace characters.  Like `json.loads`, the top level rejects
trailing non-whitespace input. -/

/-- A parsed JSON value (Python `json.loads` result). Objects keep their
members in source order; duplicate keys are resolved on lookup (last wins),
matching Python dict construction. -/
inductive Json where
  | null
  | bool (b : Bool)
  | num (n : Int)
  | str (s : String)
  | arr (xs : List Json)
  | obj (kvs : List (String × Json))

/-- The opening-brace character, written via its code so that braces appear
nowhere in the text of the file. -/
def lb : Char := '\x7b'

/-- The closing-brace character. -/
def rb : Char := '\x7d'

/-- Whether `v` is a JSON object (Python `isinstance(v, dict)`). -/
def Json.isObj : Json → Bool
  | .obj _ => true
  | _ => false

/-- Whether `v` is a JSON number. -/
def Json.isNum : Json → Bool
  | .num _ => true
  | _ => false

/-- JSON whitespace (RFC 8259: space, tab, newline, carriage return). -/
def isWsC (c : Char) : Bool :=
  c = ' ' || c = '\t' || c = '\n' || c = '\r'

/-- Skip leading JSON whitespace. -/
def skipWs : List Char → List Char
  | [] => []
  | c :: cs => if isWsC c then skipWs cs else c :: cs

/-- ASCII decimal digit test. -/
def isDig (c : Char) : Bool := '0' ≤ c && c ≤ '9'

/-- Maximal leading run of decimal digits, with the rest of the input. -/
def spanDigits : List Char → List Char × List Char
  | [] => ([], [])
  | c :: cs =>
    if isDig c then
      let p := spanDigits cs
      (c :: p.1, p.2)
    else ([], c :: cs)

/-- Value of a digit string. -/
def digitsToNat (l : List Char) : Nat :=
  l.foldl (fun a c => a * 10 + (c.toNat - 48)) 0

/-- Parse a JSON integer numeral: optional `-`, then one or more digits. -/
def parseNumTok : List Char → Option (Int × List Char)
  | [] => none
  | c :: cs =>
    if c = '-' then
      match spanDigits cs with
      | ([], _) => none
      | (ds, rest) => some (-(digitsToNat ds : Int), rest)
    else
      match spanDigits (c :: cs) with
      | ([], _) => none
      | (ds, rest) => some ((digitsToNat ds : Int), rest)

/-- Parse the body of a JSON string after the opening quote, up to the
closing quote.  Escape sequences do not occur in this repository's metadata
and are rejected. -/
def parseStrBody : List Char → Option (List Char × List Char)
  | [] => none
  | c :: cs =>
    if c = '"' then some ([], cs)
    else if c = '\\' then none
    else
      match parseStrBody cs with
      | none => none
      | some (s, r) => some (c :: s, r)

/-- Consume the exact literal `pat` from the front of the input. -/
def expectLit (pat : List Char) (l : List Char) : Option (List Char) :=
  match pat, l with
  | [], l => some l
  | p :: ps, c :: cs => if c = p then expectLit ps cs else none
  | _ :: _, [] => none

mutual
/-- Parse one JSON value (leading whitespace allowed). -/
def parseVal : Nat → List Char → Option (Json × List Char)
  | 0, _ => none
  | fuel + 1, l =>
    match skipWs l with
    | [] => none
    | c :: cs =>
      if c = lb then
        match skipWs cs with
        | [] => none
        | c2 :: cs2 =>
          if c2 = rb then some (.obj [], cs2)
          else
            match parseMems fuel (c2 :: cs2) with
            | none => none
            | some (kvs, r) => some (.obj kvs, r)
      else if c = '[' then
        match skipWs cs with
        | [] => none
        | c2 :: cs2 =>
          if c2 = ']' then some (.arr [], cs2)
          else
            match parseElems fuel (c2 :: cs2) with
            | none => none
            | some (xs, r) => some (.arr xs, r)
      else if c = '"' then
        match parseStrBody cs with
        | none => none
        | some (s, r) => some (.str s.asString, r)
      else if c = 't' then (expectLit ['r', 'u', 'e'] cs).map (fun r => (.bool true, r))
      else if c = 'f' then (expectLit ['a', 'l', 's', 'e'] cs).map (fun r => (.bool false, r))
      else if c = 'n' then (expectLit ['u', 'l', 'l'] cs).map (fun r => (.null, r))
      else if c = '-' || isDig c then (parseNumTok (c :: cs)).map (fun p => (.num p.1, p.2))
      else none

/-- Parse one or more `"key": value` members and the closing brace. -/
def parseMems : Nat → List Char → Option (List (String × Json) × List Char)
  | 0, _ => none
  | fuel + 1, l =>
    match skipWs l with
    | [] => none
    | c :: cs =>
      if c = '"' then
        match parseStrBody cs with
        | none => none
        | some (k, r1) =>
          match skipWs r1 with
          | [] => none
          | c2 :: r2 =>
            if c2 = ':' then
              match parseVal fuel r2 with
              | none => none
              | some (v, r3) =>
                match skipWs r3 with
                | [] => none
                | c3 :: r4 =>
                  if c3 = ',' then
                    match parseMems fuel r4 with
                    | none => none
                    | some (kvs, r5) => some ((k.asString, v) :: kvs, r5)
                  else if c3 = rb then some ([(k.asString, v)], r4)
                  else none
            else none
      else none

/-- Parse one or more comma-separated array elements and the closing bracket. -/
def parseElems : Nat → List Char → Option (List Json × List Char)
  | 0, _ => none
  | fuel + 1, l =>
    match parseVal fuel l with
    | none => none
    | some (v, r) =>
      match skipWs r with
      | [] => none
      | c :: r2 =>
        if c = ',' then
          match parseElems fuel r2 with
          | none => none
          | some (xs, r3) => some (v :: xs, r3)
        else if c = ']' then some ([v], r2)
        else none
end

/-- Whether the input is whitespace only. -/
def wsOnly (l : List Char) : Bool := l.all isWsC

/-- Python `json.loads` on a character list: parse one value, then require
only whitespace to remain; `none` models `json.JSONDecodeError`. -/
def json_loads (cs : List Char) : Option Json :=
  match parseVal (3 * cs.length + 3) cs with
  | none => none
  | some (v, r) => if wsOnly r then some v else none

/-! ### `JpegParser._parse_fragmented` and `JpegParser._parse_json` -/

/-- Brace-depth contribution of one character. -/
def braceDelta (c : Char) : Int :=
  if c = lb then 1 else if c = rb then -1 else 0

/-- Total brace depth of a text (counting every brace character, including
those inside string literals, exactly as the Python scan does). -/
def depthSum (l : List Char) : Int :=
  (l.map braceDelta).sum

/-- `allPos d q = true` iff, starting from depth `d`, the running brace depth
stays strictly positive after every character of `q` except the last. -/
def allPos (d : Int) : List Char → Bool
  | [] => true
  | c :: rest => rest.isEmpty || (decide (0 < d + braceDelta c) && allPos (d + braceDelta c) rest)

/-- A text is prefix-positive when every proper nonempty prefix has strictly
positive brace depth (so the depth first returns to zero exactly at the final
character) — the shape of one brace-balanced JSON object literal. -/
def prefixPos (s : List Char) : Bool := allPos 0 s

/-- One character step of the `_parse_fragmented` loop over the state
(result list, buffer, depth): append the character to the buffer; on a
closing brace that returns the depth to zero, try `json.loads` on the buffer
and reset it on success only. -/
def fragStep (st : List Json × List Char × Int) (c : Char) : List Json × List Char × Int :=
  let buf := st.2.1 ++ [c]
  if c = lb then (st.1, buf, st.2.2 + 1)
  else if c = rb then
    if st.2.2 - 1 = 0 then
      match json_loads buf with
      | some v => (st.1 ++ [v], [], 0)
      | none => (st.1, buf, st.2.2 - 1)
    else (st.1, buf, st.2.2 - 1)
  else (st.1, buf, st.2.2)

/-- `JpegParser._parse_fragmented`: scan the text character by character,
splitting at brace-depth zero and collecting the fragments `json.loads`
accepts. -/
def parse_fragmented (cs : List Char) : List Json :=
  (cs.foldl fragStep ([], [], 0)).1

/-- The JSON-splitting part of `JpegParser._parse_json` (after decoding):
parse the whole text first, returning a parsed list directly and wrapping any
other value as a singleton; on `json.JSONDecodeError` fall back to the
fragmented scan. -/
def splitObjects (cs : List Char) : List Json :=
  match json_loads cs with
  | some (.arr l) => l
  | some v => [v]
  | none => parse_fragmented cs

/-- `JpegParser._parse_json`: decode the bytes (a `ParserError` from
`_decode_data` propagates), then split into JSON objects. -/
def parse_json (data : List Nat) : Except String (List Json) :=
  match decode_data data with
  | .error e => .error e
  | .ok cs => .ok (splitObjects cs)

/-! ### Python record values and the violation record -/

/-- A Python value as stored in the violation dict: `None`, strings, ints,
floats (kept exact as rationals — no record field is ever compared at float
precision), bools, lists and dicts. -/
inductive PyVal where
  | vnone
  | vstr (s : String)
  | vint (n : Int)
  | vrat (q : Rat)
  | vbool (b : Bool)
  | vlist (xs : List PyVal)
  | vdict (kvs : List (String × PyVal))

/-- The violation record: a Python dict in insertion order. -/
abbrev VRecord := List (String × PyVal)

/-- Dict lookup on a record (`violation['k']` / `violation.get('k')`); keys
are unique in every record the builder produces, so first-match lookup agrees
with Python. -/
def recGet (r : VRecord) (k : String) : Option PyVal :=
  match r with
  | [] => none
  | p :: rest => if p.1 = k then some p.2 else recGet rest k

/-- Lookup in a parsed JSON object (`dict.get(k)`): Python dict construction
keeps the last of duplicate keys, so the scan keeps the last match. -/
def jget (kvs : List (String × Json)) (k : String) : Option Json :=
  kvs.foldl (fun acc p => if p.1 = k then some p.2 else acc) none

/-- Python truthiness of a JSON-derived value. -/
def pyTruthy : Json → Bool
  | .null => false
  | .bool b => b
  | .num n => n != 0
  | .str s => !s.isEmpty
  | .arr l => !l.isEmpty
  | .obj l => !l.isEmpty

/-- Python `int(x)` / `float(x)` on a JSON-derived scalar, restricted to the
integral values this format carries (numbers are integers; numeric strings
are integral).  `none` models the `ValueError`/`TypeError` the surrounding
`try` of `_parse_timestamp` catches. -/
def pyToInt : Json → Option Int
  | .num n => some n
  | .bool b => some (if b then 1 else 0)
  | .str s =>
    match s.toList with
    | '-' :: r =>
      match spanDigits r with
      | (ds, []) => if ds.isEmpty then none else some (-(digitsToNat ds : Int))
      | _ => none
    | l =>
      match spanDigits l with
      | (ds, []) => if ds.isEmpty then none else some ((digitsToNat ds : Int))
      | _ => none
  | _ => none

/-- Python `str(x)` as used by the f-string building `v_ts_model`; containers
never occur there in practice and are rendered with a placeholder. -/
def pyStr : Json → String
  | .str s => s
  | .num n => toString n
  | .bool b => if b then "True" else "False"
  | .null => "None"
  | .arr _ => "<list>"
  | .obj _ => "<dict>"

mutual
/-- Embed a JSON value into the record-value type (what storing a `dict.get`
result in the violation dict amounts to). -/
def jsonToPy : Json → PyVal
  | .null => .vnone
  | .bool b => .vbool b
  | .num n => .vint n
  | .str s => .vstr s
  | .arr xs => .vlist (jsonToPyList xs)
  | .obj kvs => .vdict (jsonToPyKVs kvs)

/-- `jsonToPy` mapped over a list of values. -/
def jsonToPyList : List Json → List PyVal
  | [] => []
  | x :: xs => jsonToPy x :: jsonToPyList xs

/-- `jsonToPy` mapped over the members of an object. -/
def jsonToPyKVs : List (String × Json) → List (String × PyVal)
  | [] => []
  | p :: ps => (p.1, jsonToPy p.2) :: jsonToPyKVs ps
end

/-- A `dict.get` result as a record value (`None` when the key is absent). -/
def pyOfOptJson : Option Json → PyVal
  | none => .vnone
  | some j => jsonToPy j

/-! ### `JpegParser._parse_coordinate` -/

/-- Characters the coordinate regex `[^0-9.-]` keeps. -/
def coordChar (c : Char) : Bool := isDig c || c = '.' || c = '-'

/-- Python `float(s)` on a cleaned coordinate string (digits, dots, minus
signs only): optional sign, then digits with at most one decimal point and at
least one digit in total. -/
def parsePyFloat (l : List Char) : Option Rat :=
  let unsigned : List Char → Option Rat := fun u =>
    match spanDigits u with
    | (ip, []) => if ip.isEmpty then none else some ((digitsToNat ip : Rat))
    | (ip, '.' :: fp') =>
      match spanDigits fp' with
      | (fp, []) =>
        if ip.isEmpty && fp.isEmpty then none
        else some ((digitsToNat ip : Rat) + (digitsToNat fp : Rat) / ((10 : Rat) ^ fp.length))
      | _ => none
    | _ => none
  match l with
  | '-' :: r => (unsigned r).map Neg.neg
  | _ => unsigned l

/-- `JpegParser._parse_coordinate`: `None` maps to `0.0`; strings are cleaned
by the regex `[^0-9.-] -> ''` and parsed as floats; numbers pass through;
anything unparseable (or a `TypeError` from `float`) yields `0.0`. -/
def parse_coordinate (coord : Option Json) : Rat :=
  match coord with
  | none => 0
  | some .null => 0
  | some (.str s) =>
    let cleaned := s.toList.filter coordChar
    if cleaned.isEmpty then 0
    else
      match parsePyFloat cleaned with
      | some q => q
      | none => 0
  | some (.num n) => (n : Rat)
  | some (.bool b) => if b then 1 else 0
  | some (.arr _) => 0
  | some (.obj _) => 0

/-! ### `JpegParser._parse_timestamp` -/

/-- Zero-padded decimal rendering. -/
def padNum (width n : Nat) : String :=
  let s := toString n
  ((List.replicate (width - s.length) '0').asString) ++ s

/-- Render a UTC instant given as microseconds since the epoch in the
`strftime('%Y-%m-%dT%H:%M:%S.%f')[:-3]` format of the source (date via the
standard civil-from-days algorithm, microseconds truncated to milliseconds). -/
def formatTs (micros : Int) : String :=
  let day : Int := micros.ediv 86400000000
  let rem : Nat := (micros.emod 86400000000).toNat
  let z : Int := day + 719468
  let era : Int := z.ediv 146097
  let doe : Nat := (z - era * 146097).toNat
  let yoe : Nat := (doe - doe / 1460 + doe / 36524 - doe / 146096) / 365
  let y : Int := (yoe : Int) + era * 400
  let doy : Nat := doe - (365 * yoe + yoe / 4 - yoe / 100)
  let mp : Nat := (5 * doy + 2) / 153
  let d : Nat := doy - (153 * mp + 2) / 5 + 1
  let m : Nat := if mp < 10 then mp + 3 else mp - 9
  let y2 : Int := if m ≤ 2 then y + 1 else y
  padNum 4 y2.toNat ++ "-" ++ padNum 2 m ++ "-" ++ padNum 2 d ++ "T" ++
    padNum 2 (rem / 3600000000) ++ ":" ++ padNum 2 (rem % 3600000000 / 60000000) ++ ":" ++
    padNum 2 (rem % 60000000 / 1000000) ++ "." ++ (padNum 6 (rem % 1000000)).take 3

/-- `JpegParser._parse_timestamp` on the `violation_info` mapping: a falsy or
missing `UTC` yields the injected current time `now`; otherwise the instant
is `UTC` seconds plus the `ms` milliseconds plus `int(timezone) * 360 // 3600`
hours, formatted to millisecond precision.  Any conversion error inside the
`try` (non-mapping input, unconvertible field) also yields `now`. -/
def parse_timestamp (info : Json) (now : String) : String :=
  match info with
  | .obj kvs =>
    match jget kvs "UTC" with
    | none => now
    | some u =>
      if pyTruthy u then
        match pyToInt u, pyToInt ((jget kvs "ms").getD (.num 0)),
            pyToInt ((jget kvs "timezone").getD (.num 0)) with
        | some epoch, some ms, some tz =>
          formatTs (epoch * 1000000 + ms * 1000 + ((tz * 360).ediv 3600) * 3600000000)
        | _, _, _ => now
      else now
  | _ => now

/-! ### `JpegParser._build_violation` -/

/-- `JpegParser._parse_recognizer_data`: `v_regno` from `plate_chars` with
`|` stripped (an `AttributeError` if `plate_chars` is not a string),
`v_regno_country_id` from `plate_code`, and `v_ts_model` as `"(mark/model)"`
when either part is truthy. -/
def parse_recognizer_data (r : Json) : Except String (List (String × PyVal)) :=
  match r with
  | .obj kvs =>
    match (jget kvs "plate_chars").getD (.str "") with
    | .str s =>
      let base := [("v_regno", PyVal.vstr (s.toList.filter (· ≠ '|')).asString),
                   ("v_regno_country_id", pyOfOptJson (jget kvs "plate_code"))]
      let mark := (jget kvs "mark").getD (.str "")
      let model := (jget kvs "model").getD (.str "")
      if pyTruthy mark || pyTruthy model then
        .ok (base ++ [("v_ts_model", PyVal.vstr ("(" ++ pyStr mark ++ "/" ++ pyStr model ++ ")"))])
      else .ok base
    | _ => .error "AttributeError: replace on a non-string"
  | _ => .error "AttributeError: get on a non-mapping"

/-- The GPS block of `_build_violation`: present only when
`'installation_place_info'` is a key of the last object; `.get` on a
non-mapping value raises (caught by the builder). -/
def gpsPart (kvs : List (String × Json)) : Except String (List (String × PyVal)) :=
  match jget kvs "installation_place_info" with
  | none => .ok []
  | some (.obj pk) =>
    .ok [("v_gps_x", PyVal.vrat (parse_coordinate (jget pk "latitude"))),
         ("v_gps_y", PyVal.vrat (parse_coordinate (jget pk "longitude")))]
  | some _ => .error "AttributeError: get on a non-mapping"

/-- The recognizer block of `_build_violation`. -/
def recPart (kvs : List (String × Json)) : Except String (List (String × PyVal)) :=
  match jget kvs "recogniser_info" with
  | none => .ok []
  | some r => parse_recognizer_data r

/-- The device block of `_build_violation`. -/
def devPart (kvs : List (String × Json)) : Except String (List (String × PyVal)) :=
  match jget kvs "device_info" with
  | none => .ok []
  | some (.obj dk) =>
    .ok [("v_camera", pyOfOptJson (jget dk "name_speed_meter")),
         ("v_camera_serial", pyOfOptJson (jget dk "factory_number"))]
  | some _ => .error "AttributeError: get on a non-mapping"

/-- The metadata-derived fields of `_build_violation`, in insertion order:
timestamp, then GPS, recognizer and device blocks (each only when its section
key is present).  An error models any exception inside the builder's `try`. -/
def sectionFields (last : Json) (now : String) : Except String (List (String × PyVal)) :=
  match last with
  | .obj kvs =>
    match gpsPart kvs, recPart kvs, devPart kvs with
    | .ok g, .ok r, .ok d =>
      .ok ([("v_time_check",
             PyVal.vstr (parse_timestamp ((jget kvs "violation_info").getD (.obj [])) now))] ++
           g ++ r ++ d)
    | .error e, _, _ => .error e
    | _, .error e, _ => .error e
    | _, _, .error e => .error e
  | _ => .error "AttributeError: get on a non-mapping"

/-- The photo fields of `_build_violation`: `v_photo_ts` is the first frame
and `v_photo_extra` the remaining frames, the latter only when more than one
frame exists. -/
def photoFields (frames : List String) : List (String × PyVal) :=
  ("v_photo_ts", PyVal.vstr (frames.headD "")) ::
    (if 1 < frames.length then [("v_photo_extra", PyVal.vlist (frames.tail.map PyVal.vstr))]
     else [])

/-- The body of `_build_violation`'s `try` for nonempty inputs, building from
the LAST recovered object. -/
def build_core (frames : List String) (last : Json) (now : String) :
    Except String VRecord :=
  match sectionFields last now with
  | .ok rest => .ok (photoFields frames ++ rest)
  | .error e => .error e

/-- `JpegParser._build_violation`: the empty record when either input list is
empty, and also when any exception escapes a field derivation (the trailing
`except` clause); otherwise the photo fields plus the metadata fields derived
from the last object. -/
def build_violation (frames : List String) (objs : List Json) (now : String) : VRecord :=
  if frames.isEmpty || objs.isEmpty then []
  else
    match build_core frames (objs.getLastD .null) now with
    | .ok r => r
    | .error _ => []

/-- `JpegParser._ensure_serializable`: a `json.dumps`/`json.loads` round trip.
Every value the builder ever stores is `None`, a string, a number, a bool, or
a (nested) list/dict of those, on which the round trip is the identity, and
`json.dumps` cannot fail on them; the model is therefore the identity. -/
def ensure_serializable (r : VRecord) : VRecord := r

/-! ### `JpegParser._validate_input` and `JpegParser.parse` -/

/-- `JpegParser._validate_input`: raise `ParserError` on an empty/short input
or one that does not start with the JPEG start marker `FF D8`. -/
def validate_input (data : List Nat) : Except String Unit :=
  if data.length < 10 then .error "Invalid or empty input data"
  else if !(data.take 2 == [0xFF, 0xD8]) then .error "Not a valid JPEG file"
  else .ok ()

/-- The body of `JpegParser.parse`'s `try`: validation, frame extraction,
metadata extraction, decoding + JSON recovery, record building,
serialization check.  The only operations that raise out of it are
`_validate_input` and `_decode_data` (inside `_parse_json`); everything else
catches its own failures. -/
def parseE (data : List Nat) (now : String) : Except String VRecord :=
  match validate_input data with
  | .error e => .error e
  | .ok _ =>
    match parse_json (extract_json data) with
    | .error e => .error e
    | .ok objs =>
      .ok (ensure_serializable (build_violation (extract_frames data) objs now))

/-- `JpegParser.parse`: every raised error is caught and turned into `None`. -/
def pyParse (data : List Nat) (now : String) : Option VRecord :=
  match parseE data now with
  | .ok r => some r
  | .error _ => none

/-! ### The declarative greedy frame-pairing specification (§4.1 of the
design): `Greedy data pos ps` says `ps` is exactly the list of well-paired
start/end marker occurrences a left-to-right greedy scan starting at `pos`
yields — each start is the first `FF D8` at or after the cursor, each end the
first `FF D9` at or after that start, and the scan stops when no further start
exists or a trailing start has no following end (the dangling start emits no
frame). -/
inductive Greedy (data : List Nat) : Nat → List (Nat × Nat) → Prop where
  | stopNoStart (pos : Nat)
      (hno : ∀ j, pos ≤ j → mark2 data 0xFF 0xD8 j = false) :
      Greedy data pos []
  | stopNoEnd (pos s : Nat)
      (hps : pos ≤ s) (hs : mark2 data 0xFF 0xD8 s = true)
      (hleast : ∀ j, pos ≤ j → j < s → mark2 data 0xFF 0xD8 j = false)
      (hnoend : ∀ j, s ≤ j → mark2 data 0xFF 0xD9 j = false) :
      Greedy data pos []
  | step (pos s e : Nat) (ps : List (Nat × Nat))
      (hps : pos ≤ s) (hs : mark2 data 0xFF 0xD8 s = true)
      (hleast : ∀ j, pos ≤ j → j < s → mark2 data 0xFF 0xD8 j = false)
      (hse : s ≤ e) (he : mark2 data 0xFF 0xD9 e = true)
      (heleast : ∀ j, s ≤ j → j < e → mark2 data 0xFF 0xD9 j = false)
      (hrest : Greedy data (e + 2) ps) :
      Greedy data pos ((s, e) :: ps)

/-! ## Theorems -/

/-! ### Marker-scan characterizations -/

theorem mark2_lt {data : List Nat} {b0 b1 i : Nat} (h : mark2 data b0 b1 i = true) :
    i + 1 < data.length := by
  simp only [mark2, Bool.and_eq_true, beq_iff_eq] at h
  have h2 := h.2
  by_contra hc
  rw [List.getElem?_eq_none (by omega)] at h2
  exact Option.noConfusion h2

theorem find2Aux_some {data : List Nat} {b0 b1 : Nat} :
    ∀ {fuel pos i : Nat}, find2Aux data b0 b1 pos fuel = some i →
      pos ≤ i ∧ mark2 data b0 b1 i = true ∧
        ∀ j, pos ≤ j → j < i → mark2 data b0 b1 j = false := by
  intro fuel
  induction fuel with
  | zero => intro pos i h; simp [find2Aux] at h
  | succ fuel ih =>
    intro pos i h
    rw [find2Aux] at h
    by_cases hm : mark2 data b0 b1 pos
    · simp only [hm, if_true, Option.some.injEq] at h
      subst h
      exact ⟨le_refl _, hm, fun j h1 h2 => absurd (lt_of_le_of_lt h1 h2) (lt_irrefl _)⟩
    · simp only [hm, if_false] at h
      obtain ⟨h1, h2, h3⟩ := ih h
      refine ⟨by omega, h2, fun j hj1 hj2 => ?_⟩
      rcases Nat.eq_or_lt_of_le hj1 with rfl | hj
      · exact Bool.not_eq_true _ ▸ (by simpa using hm)
      · exact h3 j hj hj2

theorem find2Aux_none {data : List Nat} {b0 b1 : Nat} :
    ∀ {fuel pos : Nat}, find2Aux data b0 b1 pos fuel = none →
      ∀ j, pos ≤ j → j < pos + fuel → mark2 data b0 b1 j = false := by
  intro fuel
  induction fuel with
  | zero => intro pos _ j h1 h2; omega
  | succ fuel ih =>
    intro pos h j h1 h2
    rw [find2Aux] at h
    by_cases hm : mark2 data b0 b1 pos
    · simp [hm] at h
    · simp only [hm, if_false] at h
      rcases Nat.eq_or_lt_of_le h1 with rfl | hj
      · exact Bool.not_eq_true _ ▸ (by simpa using hm)
      · exact ih h j hj (by omega)

theorem find2Aux_mem {data : List Nat} {b0 b1 : Nat} :
    ∀ {fuel pos i : Nat}, pos ≤ i → i < pos + fuel → mark2 data b0 b1 i = true →
      find2Aux data b0 b1 pos fuel ≠ none := by
  intro fuel
  induction fuel with
  | zero => intro pos i h1 h2; omega
  | succ fuel ih =>
    intro pos i h1 h2 hm
    rw [find2Aux]
    by_cases hp : mark2 data b0 b1 pos
    · simp [hp]
    · simp only [hp, if_false]
      rcases Nat.eq_or_lt_of_le h1 with rfl | hj
      · exact absurd hm hp
      · exact ih hj (by omega) hm

/-- `find2` is `none` exactly when the marker never occurs at or after `pos`. -/
theorem find2_none_iff {data : List Nat} {b0 b1 pos : Nat} :
    find2 data b0 b1 pos = none ↔ ∀ j, pos ≤ j → mark2 data b0 b1 j = false := by
  constructor
  · intro h j hj
    by_cases hm : mark2 data b0 b1 j
    · have hlt := mark2_lt hm
      exact absurd h (find2Aux_mem hj (by omega) hm)
    · simpa using hm
  · intro h
    cases hf : find2 data b0 b1 pos with
    | none => rfl
    | some i =>
      obtain ⟨h1, h2, _⟩ := find2Aux_some hf
      rw [h i h1] at h2
      exact absurd h2 (by simp)

/-- `find2` returns exactly the least marker occurrence at or after `pos`. -/
theorem find2_some_iff {data : List Nat} {b0 b1 pos i : Nat} :
    find2 data b0 b1 pos = some i ↔
      pos ≤ i ∧ mark2 data b0 b1 i = true ∧
        ∀ j, pos ≤ j → j < i → mark2 data b0 b1 j = false := by
  constructor
  · exact find2Aux_some
  · rintro ⟨h1, h2, h3⟩
    cases hf : find2 data b0 b1 pos with
    | none => exact absurd (find2_none_iff.mp hf i h1) (by simp [h2])
    | some k =>
      obtain ⟨g1, g2, g3⟩ := find2Aux_some hf
      rcases lt_trichotomy k i with h | h | h
      · rw [h3 k g1 h] at g2; exact absurd g2 (by simp)
      · rw [h]
      · rw [g3 i h1 h] at h2; exact absurd h2 (by simp)

theorem rfind2Aux_some {data : List Nat} {b0 b1 : Nat} :
    ∀ {k i : Nat}, rfind2Aux data b0 b1 k = some i →
      i < k ∧ mark2 data b0 b1 i = true ∧
        ∀ j, i < j → j < k → mark2 data b0 b1 j = false := by
  intro k
  induction k with
  | zero => intro i h; simp [rfind2Aux] at h
  | succ k ih =>
    intro i h
    rw [rfind2Aux] at h
    by_cases hm : mark2 data b0 b1 k
    · simp only [hm, if_true, Option.some.injEq] at h
      subst h
      exact ⟨by omega, hm, fun j h1 h2 => by omega⟩
    · simp only [hm, if_false] at h
      obtain ⟨h1, h2, h3⟩ := ih h
      refine ⟨by omega, h2, fun j hj1 hj2 => ?_⟩
      rcases Nat.lt_succ_iff_lt_or_eq.mp hj2 with hj | rfl
      · exact h3 j hj1 hj
      · simpa using hm

theorem rfind2Aux_none {data : List Nat} {b0 b1 : Nat} :
    ∀ {k : Nat}, rfind2Aux data b0 b1 k = none →
      ∀ j, j < k → mark2 data b0 b1 j = false := by
  intro k
  induction k with
  | zero => intro _ j h; omega
  | succ k ih =>
    intro h j hj
    rw [rfind2Aux] at h
    by_cases hm : mark2 data b0 b1 k
    · simp [hm] at h
    · simp only [hm, if_false] at h
      rcases Nat.lt_succ_iff_lt_or_eq.mp hj with hj | rfl
      · exact ih h j hj
      · simpa using hm

/-- `rfind2` is `none` exactly when the marker never occurs. -/
theorem rfind2_none_iff {data : List Nat} {b0 b1 : Nat} :
    rfind2 data b0 b1 = none ↔ ∀ j, mark2 data b0 b1 j = false := by
  constructor
  · intro h j
    by_cases hm : mark2 data b0 b1 j
    · exact absurd (rfind2Aux_none h j (by have := mark2_lt hm; omega)) (by simp [hm])
    · simpa using hm
  · intro h
    cases hf : rfind2 data b0 b1 with
    | none => rfl
    | some i =>
      obtain ⟨_, h2, _⟩ := rfind2Aux_some hf
      rw [h i] at h2
      exact absurd h2 (by simp)

/-- `rfind2` returns exactly the greatest marker occurrence. -/
theorem rfind2_some {data : List Nat} {b0 b1 i : Nat}
    (h : rfind2 data b0 b1 = some i) :
    mark2 data b0 b1 i = true ∧ ∀ j, mark2 data b0 b1 j = true → j ≤ i := by
  obtain ⟨h1, h2, h3⟩ := rfind2Aux_some h
  refine ⟨h2, fun j hj => ?_⟩
  by_contra hc
  have := h3 j (by omega) (by have := mark2_lt hj; omega)
  rw [hj] at this
  exact absurd this (by simp)

/-! ### Frame extraction: the greedy pairing -/

/-- A start marker and an end marker cannot overlap: an end at or after a
start sits at least two bytes later. -/
theorem start_end_sep {data : List Nat} {s e : Nat}
    (hs : mark2 data 0xFF 0xD8 s = true) (he : mark2 data 0xFF 0xD9 e = true)
    (hse : s ≤ e) : s + 2 ≤ e := by
  simp only [mark2, Bool.and_eq_true, beq_iff_eq] at hs he
  rcases Nat.lt_or_ge e (s + 2) with h | h
  · have he2 : e = s ∨ e = s + 1 := by omega
    rcases he2 with rfl | rfl
    · exact absurd (Option.some.inj (hs.2.symm.trans he.2)) (by decide)
    · exact absurd (Option.some.inj (hs.2.symm.trans he.1)) (by decide)
  · exact h

theorem extractPairsAux_greedy {data : List Nat} :
    ∀ fuel pos, data.length + 1 ≤ fuel + pos →
      Greedy data pos (extractPairsAux data fuel pos) := by
  intro fuel
  induction fuel with
  | zero =>
    intro pos hfuel
    refine Greedy.stopNoStart pos (fun j hj => ?_)
    by_contra hm
    have := mark2_lt (by simpa using hm)
    omega
  | succ fuel ih =>
    intro pos hfuel
    cases hstart : find2 data 0xFF 0xD8 pos with
    | none =>
      have heq : extractPairsAux data (fuel + 1) pos = [] := by
        rw [extractPairsAux]
        simp [hstart]
      rw [heq]
      exact Greedy.stopNoStart pos (find2_none_iff.mp hstart)
    | some s =>
      obtain ⟨h1, h2, h3⟩ := find2_some_iff.mp hstart
      cases hend : find2 data 0xFF 0xD9 s with
      | none =>
        have heq : extractPairsAux data (fuel + 1) pos = [] := by
          rw [extractPairsAux]
          simp [hstart, hend]
        rw [heq]
        exact Greedy.stopNoEnd pos s h1 h2 h3 (find2_none_iff.mp hend)
      | some e =>
        obtain ⟨g1, g2, g3⟩ := find2_some_iff.mp hend
        have heq : extractPairsAux data (fuel + 1) pos =
            (s, e) :: extractPairsAux data fuel (e + 2) := by
          rw [extractPairsAux]
          simp [hstart, hend]
        rw [heq]
        exact Greedy.step pos s e _ h1 h2 h3 g1 g2 g3 (ih (e + 2) (by omega))

theorem greedy_extractPairsAux {data : List Nat} {pos : Nat} {ps : List (Nat × Nat)}
    (hg : Greedy data pos ps) :
    ∀ fuel, data.length + 1 ≤ fuel + pos → ps = extractPairsAux data fuel pos := by
  induction hg with
  | stopNoStart pos hno =>
    intro fuel hfuel
    cases fuel with
    | zero => rfl
    | succ fuel =>
      rw [extractPairsAux]
      simp only [find2_none_iff.mpr hno]
  | stopNoEnd pos s hps hs hleast hnoend =>
    intro fuel hfuel
    cases fuel with
    | zero => rfl
    | succ fuel =>
      rw [extractPairsAux]
      simp only [find2_some_iff.mpr ⟨hps, hs, hleast⟩, find2_none_iff.mpr hnoend]
  | step pos s e ps hps hs hleast hse he heleast _ ih =>
    intro fuel hfuel
    cases fuel with
    | zero =>
      have := mark2_lt hs
      omega
    | succ fuel =>
      rw [extractPairsAux]
      simp only [find2_some_iff.mpr ⟨hps, hs, hleast⟩,
        find2_some_iff.mpr ⟨hse, he, heleast⟩]
      have := mark2_lt he
      rw [ih fuel (by omega)]

/-- Structural facts carried by every greedy pairing: frames sit at or after
the cursor, each spans at least the two markers, each end is the nearest end
at or after its start, and consecutive frames are separated (`e + 2 ≤ s'`). -/
theorem greedy_facts {data : List Nat} {pos : Nat} {ps : List (Nat × Nat)}
    (hg : Greedy data pos ps) :
    List.Chain' (fun p q => p.2 + 2 ≤ q.1) ps ∧
      ∀ p ∈ ps, pos ≤ p.1 ∧ p.1 + 2 ≤ p.2 ∧
        mark2 data 0xFF 0xD8 p.1 = true ∧ mark2 data 0xFF 0xD9 p.2 = true ∧
        ∀ j, p.1 ≤ j → j < p.2 → mark2 data 0xFF 0xD9 j = false := by
  induction hg with
  | stopNoStart pos hno => exact ⟨List.chain'_nil, by simp⟩
  | stopNoEnd pos s hps hs hleast hnoend => exact ⟨List.chain'_nil, by simp⟩
  | step pos s e ps hps hs hleast hse he heleast hrest ih =>
    obtain ⟨hchain, hmem⟩ := ih
    constructor
    · refine List.chain'_cons'.mpr ⟨?_, hchain⟩
      intro q hq
      have := (hmem q (List.mem_of_mem_head? hq)).1
      simpa using this
    · intro p hp
      rcases List.mem_cons.mp hp with rfl | hp
      · exact ⟨hps, start_end_sep hs he hse, hs, he, heleast⟩
      · obtain ⟨k1, k2, k3, k4, k5⟩ := hmem p hp
        exact ⟨by omega, k2, k3, k4, k5⟩

/-- C3: `extractFrames` emits exactly the well-paired marker occurrences, in
ascending offset order.  `Greedy data 0` is the declarative greedy pairing of
§4.1 (each start is the first `FF D8` at or after the cursor, each end the
first `FF D9` at or after that start, a dangling trailing start emits
nothing); the extractor's pairs satisfy it, any list satisfying it equals the
extractor's output (so the count of frames is exactly the count of
well-paired occurrences), consecutive frames are non-overlapping with
strictly increasing, never-reused end markers (`p.2 + 2 ≤ q.1`), every frame
spans start marker to the nearest following end marker, and each emitted
frame is the base64 text of the byte range `[start, end + 2)`. -/
theorem C3_extract_frames_pairing (data : List Nat) :
    Greedy data 0 (extractPairs data) ∧
    (∀ ps, Greedy data 0 ps → ps = extractPairs data) ∧
    List.Chain' (fun p q => p.2 + 2 ≤ q.1) (extractPairs data) ∧
    (∀ p ∈ extractPairs data, p.1 + 2 ≤ p.2 ∧
      mark2 data 0xFF 0xD8 p.1 = true ∧ mark2 data 0xFF 0xD9 p.2 = true ∧
      ∀ j, p.1 ≤ j → j < p.2 → mark2 data 0xFF 0xD9 j = false) ∧
    extract_frames data =
      (extractPairs data).map (fun p => (b64encode (pySlice data p.1 (p.2 + 2))).asString) := by
  have hg : Greedy data 0 (extractPairs data) :=
    extractPairsAux_greedy (data.length + 1) 0 (by omega)
  obtain ⟨hchain, hmem⟩ := greedy_facts hg
  exact ⟨hg, fun ps hps => greedy_extractPairsAux hps (data.length + 1) (by omega),
    hchain, fun p hp => ⟨(hmem p hp).2.1, (hmem p hp).2.2.1, (hmem p hp).2.2.2.1,
      (hmem p hp).2.2.2.2⟩, rfl⟩

/-- Witness for C3 at a concrete input: the uniqueness direction applied to
an explicit `Greedy` derivation on the empty buffer. -/
theorem C3_extract_frames_pairing_witness :
    ([] : List (Nat × Nat)) = extractPairs [] :=
  (C3_extract_frames_pairing []).2.1 []
    (Greedy.stopNoStart 0 (fun j _ => by simp [mark2]))

/-! ### The metadata locator -/

/-- C7: `extractMetadataRegion` returns exactly the bytes strictly after the
last `FF D9` occurrence (2 bytes past its start), and the empty range — not a
failure — when the end marker never occurs. -/
theorem C7_extract_json_after_last_end (data : List Nat) :
    ((∀ j, mark2 data 0xFF 0xD9 j = false) → extract_json data = []) ∧
    (∀ i, mark2 data 0xFF 0xD9 i = true →
      (∀ j, mark2 data 0xFF 0xD9 j = true → j ≤ i) →
      extract_json data = data.drop (i + 2)) := by
  constructor
  · intro h
    unfold extract_json
    rw [rfind2_none_iff.mpr h]
  · intro i hi hgreatest
    cases hf : rfind2 data 0xFF 0xD9 with
    | none =>
      rw [rfind2_none_iff.mp hf i] at hi
      exact absurd hi (by simp)
    | some k =>
      obtain ⟨hk, hmax⟩ := rfind2_some hf
      have h1 : k ≤ i := hgreatest k hk
      have h2 : i ≤ k := hmax i hi
      have : k = i := le_antisymm h1 h2
      subst this
      unfold extract_json
      rw [hf]

/-- Witness for C7 at a concrete buffer whose (unique and hence last) end
marker starts at offset 0. -/
theorem C7_extract_json_after_last_end_witness :
    extract_json [0xFF, 0xD9, 7] = List.drop 2 [0xFF, 0xD9, 7] := by
  have hgreatest : ∀ j, mark2 [0xFF, 0xD9, 7] 0xFF 0xD9 j = true → j ≤ 0 := by
    intro j hj
    have hlt := mark2_lt hj
    have hlen : ([0xFF, 0xD9, 7] : List Nat).length = 3 := rfl
    rw [hlen] at hlt
    have hj2 : j = 0 ∨ j = 1 := by omega
    rcases hj2 with rfl | rfl
    · exact le_refl 0
    · exact absurd hj (by decide)
  exact (C7_extract_json_after_last_end [0xFF, 0xD9, 7]).2 0 (by decide) hgreatest

/-! ### The multi-encoding decoder -/

theorem latin1Decode_total {data : List Nat} (h : ∀ b ∈ data, b < 256) :
    ∃ s, latin1Decode data = some s := by
  induction data with
  | nil => exact ⟨[], rfl⟩
  | cons b rest ih =>
    obtain ⟨s, hs⟩ := ih (fun x hx => h x (List.mem_cons_of_mem _ hx))
    refine ⟨Char.ofNat b :: s, ?_⟩
    rw [latin1Decode]
    simp [h b (List.mem_cons_self _ _), hs]

/-- C6: the decoder tries UTF-8 first, then windows-1251, then latin-1,
returning the first successful decoding with surrounding whitespace stripped;
with this default encoding list it never raises on genuine byte input, since
latin-1 decodes every byte value. -/
theorem C6_decode_priority_and_total (data : List Nat) (hb : ∀ b ∈ data, b < 256) :
    (∀ s, utf8Decode data = some s → decode_data data = .ok (pyStrip s)) ∧
    (utf8Decode data = none → ∀ s, win1251Decode data = some s →
      decode_data data = .ok (pyStrip s)) ∧
    (utf8Decode data = none → win1251Decode data = none →
      ∃ s, latin1Decode data = some s ∧ decode_data data = .ok (pyStrip s)) ∧
    (∃ t, decode_data data = .ok t) := by
  refine ⟨?_, ?_, ?_, ?_⟩
  · intro s hs
    unfold decode_data
    rw [hs]
  · intro hu s hs
    unfold decode_data
    rw [hu, hs]
  · intro hu hw
    obtain ⟨s, hs⟩ := latin1Decode_total hb
    refine ⟨s, hs, ?_⟩
    unfold decode_data
    rw [hu, hw, hs]
  · cases hu : utf8Decode data with
    | some s => exact ⟨pyStrip s, by unfold decode_data; rw [hu]⟩
    | none =>
      cases hw : win1251Decode data with
      | some s => exact ⟨pyStrip s, by unfold decode_data; rw [hu, hw]⟩
      | none =>
        obtain ⟨s, hs⟩ := latin1Decode_total hb
        exact ⟨pyStrip s, by unfold decode_data; rw [hu, hw, hs]⟩

/-- Witness for C6 on the two-byte input `FF 98`: UTF-8 rejects it (stray
lead byte), windows-1251 rejects it (unassigned `0x98`), and the decoder
still succeeds through the latin-1 fallback. -/
theorem C6_decode_priority_and_total_witness :
    utf8Decode [0xFF, 0x98] = none ∧ win1251Decode [0xFF, 0x98] = none ∧
      ∃ s, latin1Decode [0xFF, 0x98] = some s ∧
        decode_data [0xFF, 0x98] = .ok (pyStrip s) :=
  ⟨by decide, by decide,
    (C6_decode_priority_and_total [0xFF, 0x98] (by decide)).2.2.1 (by decide) (by decide)⟩

/-! ### The last-object policy of `_build_violation` -/

/-- C5: the violation record is derived entirely from the last element of the
recovered JSON object sequence — the builder's output on any nonempty
sequence equals its output on the singleton holding that sequence's last
element, so an earlier object never influences a field and a later duplicate
key wins. -/
theorem C5_build_from_last_object (frames : List String) (objs : List Json)
    (now : String) (h : objs ≠ []) :
    build_violation frames objs now = build_violation frames [objs.getLast h] now := by
  have ho : objs.isEmpty = false := by
    simpa [List.isEmpty_iff] using h
  have hlast : objs.getLastD Json.null = objs.getLast h := by
    rw [List.getLastD_eq_getLast?, List.getLast?_eq_getLast _ h]
    rfl
  unfold build_violation
  rw [ho, hlast]
  rfl

/-- Witness for C5: the builder run on a two-object sequence agrees with the
run on the singleton of its last object. -/
theorem C5_build_from_last_object_witness :
    build_violation ["A"] [Json.obj [("x", Json.num 1)], Json.obj []] "T" =
      build_violation ["A"]
        [([Json.obj [("x", Json.num 1)], Json.obj []].getLast (List.cons_ne_nil _ _))] "T" :=
  C5_build_from_last_object _ _ _ (List.cons_ne_nil _ _)

/-! ### Record lookups -/

theorem recGet_append (l1 l2 : VRecord) (k : String) :
    recGet (l1 ++ l2) k =
      match recGet l1 k with
      | some v => some v
      | none => recGet l2 k := by
  induction l1 with
  | nil => rfl
  | cons p rest ih =>
    by_cases hp : p.1 = k <;> simp [recGet, hp, ih]

theorem recGet_photoFields_other (frames : List String) (k : String)
    (h1 : k ≠ "v_photo_ts") (h2 : k ≠ "v_photo_extra") :
    recGet (photoFields frames) k = none := by
  by_cases hlen : 1 < frames.length <;>
    simp [photoFields, recGet, hlen, Ne.symm h1, Ne.symm h2]

theorem gpsPart_no_photo {kvs : List (String × Json)} {g : VRecord}
    (h : gpsPart kvs = .ok g) :
    recGet g "v_photo_ts" = none ∧ recGet g "v_photo_extra" = none := by
  unfold gpsPart at h
  repeat' split at h
  all_goals first
    | exact Except.noConfusion h
    | (injection h with h; rw [← h]; exact ⟨rfl, rfl⟩)

theorem recPart_no_photo {kvs : List (String × Json)} {g : VRecord}
    (h : recPart kvs = .ok g) :
    recGet g "v_photo_ts" = none ∧ recGet g "v_photo_extra" = none := by
  unfold recPart parse_recognizer_data at h
  repeat' first
    | split at h
    | dsimp only at h
  all_goals first
    | exact Except.noConfusion h
    | (injection h with h; rw [← h]; exact ⟨rfl, rfl⟩)

theorem devPart_no_photo {kvs : List (String × Json)} {g : VRecord}
    (h : devPart kvs = .ok g) :
    recGet g "v_photo_ts" = none ∧ recGet g "v_photo_extra" = none := by
  unfold devPart at h
  repeat' split at h
  all_goals first
    | exact Except.noConfusion h
    | (injection h with h; rw [← h]; exact ⟨rfl, rfl⟩)

/-- No metadata-derived field of the record uses the photo field names. -/
theorem sectionFields_no_photo {last : Json} {now : String} {rest : VRecord}
    (h : sectionFields last now = .ok rest) :
    recGet rest "v_photo_ts" = none ∧ recGet rest "v_photo_extra" = none := by
  unfold sectionFields at h
  split at h
  case _ kvs =>
    split at h
    case _ g r d hg hr hd =>
      obtain ⟨g1, g2⟩ := gpsPart_no_photo hg
      obtain ⟨r1, r2⟩ := recPart_no_photo hr
      obtain ⟨d1, d2⟩ := devPart_no_photo hd
      injection h with h
      rw [← h]
      constructor <;> simp [recGet_append, recGet, g1, g2, r1, r2, d1, d2]
    all_goals exact Except.noConfusion h
  case _ => exact Except.noConfusion h

/-! ### Defaults for an all-sections-missing object (C8) -/

/-- C8 counterexample: on a nonempty frames list and a last object that is a
valid JSON object with all four sections missing, the record does NOT carry
every metadata-derived field at a default — the GPS, camera and plate fields
are simply absent from the record (the claim asserts they are present). -/
theorem C8_all_sections_missing_counterexample :
    recGet (build_violation ["F"] [Json.obj []] "NOW") "v_gps_x" = none ∧
    recGet (build_violation ["F"] [Json.obj []] "NOW") "v_camera" = none ∧
    recGet (build_violation ["F"] [Json.obj []] "NOW") "v_regno" = none ∧
    (none : Option PyVal) ≠ some (PyVal.vrat 0) := by
  refine ⟨rfl, rfl, rfl, by simp⟩

/-- C8 amended: for every nonempty frames list and every objects list whose
last element is a syntactically valid JSON object with all four sections
(device info, installation-place info, violation info, recognizer info)
missing, `buildRecord` does not fail — it returns exactly the photo fields
plus `v_time_check` (which falls back to the injected current time); every
section-derived field (`v_gps_x`, `v_gps_y`, `v_camera`, `v_camera_serial`,
`v_regno`, `v_regno_country_id`, `v_ts_model`) is absent from the record
rather than present at a default. -/
theorem C8_all_sections_missing_amended (frames : List String) (objs : List Json)
    (now : String) (kvs : List (String × Json))
    (h : frames ≠ []) (ho : objs ≠ [])
    (hlast : objs.getLast ho = Json.obj kvs)
    (hvi : jget kvs "violation_info" = none)
    (hip : jget kvs "installation_place_info" = none)
    (hri : jget kvs "recogniser_info" = none)
    (hdi : jget kvs "device_info" = none) :
    build_violation frames objs now =
      photoFields frames ++ [("v_time_check", PyVal.vstr now)] ∧
    ∀ k, k ∈ ["v_gps_x", "v_gps_y", "v_camera", "v_camera_serial",
        "v_regno", "v_regno_country_id", "v_ts_model"] →
      recGet (build_violation frames objs now) k = none := by
  have hfe : frames.isEmpty = false := by
    simpa [List.isEmpty_iff] using h
  have hoe : objs.isEmpty = false := by
    simpa [List.isEmpty_iff] using ho
  have hlastD : objs.getLastD Json.null = Json.obj kvs := by
    rw [List.getLastD_eq_getLast?, List.getLast?_eq_getLast _ ho]
    simpa using hlast
  have hcore : build_core frames (Json.obj kvs) now =
      .ok (photoFields frames ++ [("v_time_check", PyVal.vstr now)]) := by
    unfold build_core sectionFields gpsPart recPart devPart
    simp only [hvi, hip, hri, hdi]
    rfl
  have heq : build_violation frames objs now =
      photoFields frames ++ [("v_time_check", PyVal.vstr now)] := by
    unfold build_violation
    rw [hfe, hoe, hlastD]
    simp only [hcore]
    rfl
  refine ⟨heq, fun k hk => ?_⟩
  rw [heq, recGet_append]
  have hother : recGet (photoFields frames) k = none := by
    refine recGet_photoFields_other frames k ?_ ?_ <;>
      (intro hcontra; subst hcontra; simp at hk)
  rw [hother]
  fin_cases hk <;> rfl

/-- Witness for C8 amended at one frame and a two-element objects list whose
last element carries an unrelated key and none of the four sections. -/
theorem C8_all_sections_missing_amended_witness :
    build_violation ["F"] [Json.obj [], Json.obj [("other", Json.num 7)]] "X" =
      photoFields ["F"] ++ [("v_time_check", PyVal.vstr "X")] :=
  (C8_all_sections_missing_amended ["F"] [Json.obj [], Json.obj [("other", Json.num 7)]]
    "X" [("other", Json.num 7)] (List.cons_ne_nil _ _) (List.cons_ne_nil _ _)
    rfl rfl rfl rfl rfl).1

/-! ### Photo fields (C9) -/

/-- C9 counterexample: with exactly one frame the auxiliary photo field is
absent from the record, not the empty list the claim asserts. -/
theorem C9_single_frame_counterexample :
    recGet (build_violation ["A"] [Json.obj []] "N") "v_photo_extra" = none ∧
    (none : Option PyVal) ≠ some (PyVal.vlist []) := by
  refine ⟨rfl, by simp⟩

/-- C9 amended: whenever the builder returns a nonempty record, its primary
photo field is the first frame's base64 text and, when more than one frame
exists, `v_photo_extra` is the list of all remaining frames in order (length
1 for two frames); with exactly one frame `v_photo_extra` is absent from the
record (not the empty list). -/
theorem C9_photo_fields_amended (frames : List String) (objs : List Json)
    (now : String) (h : build_violation frames objs now ≠ []) :
    recGet (build_violation frames objs now) "v_photo_ts" =
      some (PyVal.vstr (frames.headD "")) ∧
    (1 < frames.length →
      recGet (build_violation frames objs now) "v_photo_extra" =
        some (PyVal.vlist (frames.tail.map PyVal.vstr))) ∧
    (frames.length = 1 →
      recGet (build_violation frames objs now) "v_photo_extra" = none) := by
  unfold build_violation at h ⊢
  by_cases hcond : (frames.isEmpty || objs.isEmpty) = true
  · rw [if_pos hcond] at h
    exact absurd rfl h
  · rw [if_neg hcond] at h ⊢
    cases hcore : build_core frames (objs.getLastD .null) now with
    | error e =>
      rw [hcore] at h
      exact absurd rfl h
    | ok r =>
      simp only [hcore]
      unfold build_core at hcore
      cases hsect : sectionFields (objs.getLastD .null) now with
      | error e =>
        rw [hsect] at hcore
        exact Except.noConfusion hcore
      | ok rest =>
        rw [hsect] at hcore
        injection hcore with hcore
        obtain ⟨hnp1, hnp2⟩ := sectionFields_no_photo hsect
        rw [← hcore]
        refine ⟨?_, ?_, ?_⟩
        · rw [recGet_append]
          simp [photoFields, recGet]
        · intro hlen
          rw [recGet_append]
          simp [photoFields, recGet, hlen]
        · intro hlen
          rw [recGet_append]
          have hph : recGet (photoFields frames) "v_photo_extra" = none := by
            simp [photoFields, recGet, hlen]
          rw [hph, hnp2]

/-- Witness for C9 amended with two frames: `v_photo_extra` has length 1. -/
theorem C9_photo_fields_amended_witness :
    recGet (build_violation ["A", "B"] [Json.obj []] "T") "v_photo_extra" =
      some (PyVal.vlist ((["A", "B"] : List String).tail.map PyVal.vstr)) := by
  have h : build_violation ["A", "B"] [Json.obj []] "T" ≠ [] := by
    have e : build_violation ["A", "B"] [Json.obj []] "T" =
        [("v_photo_ts", PyVal.vstr "A"), ("v_photo_extra", PyVal.vlist [PyVal.vstr "B"]),
         ("v_time_check", PyVal.vstr "T")] := rfl
    rw [e]
    exact List.cons_ne_nil _ _
  exact (C9_photo_fields_amended ["A", "B"] [Json.obj []] "T" h).2.1 (by norm_num)

/-! ### The timestamp (C1) -/

/-- C1 counterexample: for a last object with `violation_info` carrying UTC
epoch 1700000000, ms 500 and timezone 3, the record's `v_time_check` is the
ISO timestamp for the epoch plus 500 ms with NO hour offset
(`2023-11-14T22:13:20.500`), not the claimed value 3 hours later
(`2023-11-15T01:13:20.500`, the ISO rendering of epoch + 3h + 500 ms):
`int(timezone) * 360 // 3600` is 0 whole hours for timezone code 3. -/
theorem C1_timestamp_counterexample :
    recGet (build_violation ["F"]
        [Json.obj [("violation_info", Json.obj
          [("UTC", Json.num 1700000000), ("ms", Json.num 500), ("timezone", Json.num 3)])]]
        "NOW") "v_time_check" = some (PyVal.vstr "2023-11-14T22:13:20.500") ∧
    formatTs ((1700000000 + 3 * 3600) * 1000000 + 500 * 1000) = "2023-11-15T01:13:20.500" ∧
    "2023-11-14T22:13:20.500" ≠ "2023-11-15T01:13:20.500" := by
  refine ⟨rfl, rfl, by decide⟩

/-- C1 amended: for such an input the record's `v_time_check` equals the ISO
millisecond-precision timestamp for epoch 1700000000 plus 500 ms plus
`(3 * 360) // 3600 = 0` whole hours — the timezone code, scaled by the fixed
factor 360 and floor-divided by 3600, contributes zero hours. -/
theorem C1_timestamp_amended (frames : List String) (now : String) (h : frames ≠ []) :
    recGet (build_violation frames
        [Json.obj [("violation_info", Json.obj
          [("UTC", Json.num 1700000000), ("ms", Json.num 500), ("timezone", Json.num 3)])]]
        now) "v_time_check" =
      some (PyVal.vstr (formatTs (1700000000 * 1000000 + 500 * 1000 +
        (((3 : Int) * 360).ediv 3600) * 3600000000))) := by
  have hf : frames.isEmpty = false := by
    simpa [List.isEmpty_iff] using h
  unfold build_violation
  rw [hf]
  have hcore : build_core frames
      (([Json.obj [("violation_info", Json.obj
        [("UTC", Json.num 1700000000), ("ms", Json.num 500),
         ("timezone", Json.num 3)])]]).getLastD Json.null) now =
      .ok (photoFields frames ++ [("v_time_check", PyVal.vstr (formatTs
        (1700000000 * 1000000 + 500 * 1000 +
          (((3 : Int) * 360).ediv 3600) * 3600000000)))]) := rfl
  simp only [Bool.false_or, List.isEmpty_cons, hcore]
  rw [if_neg (by simp), recGet_append]
  rw [recGet_photoFields_other frames "v_time_check" (by decide) (by decide)]
  rfl

/-- Witness for C1 amended at a single concrete frame. -/
theorem C1_timestamp_amended_witness :
    recGet (build_violation ["F"]
        [Json.obj [("violation_info", Json.obj
          [("UTC", Json.num 1700000000), ("ms", Json.num 500), ("timezone", Json.num 3)])]]
        "X") "v_time_check" =
      some (PyVal.vstr (formatTs (1700000000 * 1000000 + 500 * 1000 +
        (((3 : Int) * 360).ediv 3600) * 3600000000))) :=
  C1_timestamp_amended ["F"] "X" (List.cons_ne_nil _ _)

/-! ### Insufficient data (C2) -/

/-- C2 counterexample: a valid-looking input with zero extracted frames makes
`parse` return a success value (the empty record), not an
`InsufficientDataError` failure — no such error exists in the code, which
returns `{}` from `_build_violation` instead of raising. -/
theorem C2_insufficient_data_counterexample :
    extract_frames [0xFF, 0xD8, 0, 0, 0, 0, 0, 0, 0, 0] = [] ∧
    pyParse [0xFF, 0xD8, 0, 0, 0, 0, 0, 0, 0, 0] "NOW" = some [] ∧
    (some ([] : VRecord) ≠ (none : Option VRecord)) := by
  refine ⟨rfl, rfl, by simp⟩

theorem decode_data_total (data : List Nat) (hb : ∀ b ∈ data, b < 256) :
    ∃ t, decode_data data = .ok t := by
  cases hu : utf8Decode data with
  | some s => exact ⟨pyStrip s, by unfold decode_data; rw [hu]⟩
  | none =>
    cases hw : win1251Decode data with
    | some s => exact ⟨pyStrip s, by unfold decode_data; rw [hu, hw]⟩
    | none =>
      obtain ⟨s, hs⟩ := latin1Decode_total hb
      exact ⟨pyStrip s, by unfold decode_data; rw [hu, hw, hs]⟩

theorem extract_json_sub {data : List Nat} : ∀ b ∈ extract_json data, b ∈ data := by
  unfold extract_json
  cases rfind2 data 0xFF 0xD9 with
  | none => simp
  | some i => exact fun b hb => List.mem_of_mem_drop hb

/-- C2 amended: `buildRecord` signals missing data by returning the EMPTY
record rather than raising an `InsufficientDataError` (no such error exists):
it returns the empty record whenever frames or objects is empty (and also
when field extraction from the last object fails, via the builder's catch-all
`except`); on a well-formed byte input with zero extracted frames, `parse`
returns the empty record as a success value. -/
theorem C2_insufficient_data_amended :
    (∀ (frames : List String) (objs : List Json) (now : String),
      frames = [] ∨ objs = [] → build_violation frames objs now = []) ∧
    (∀ (data : List Nat) (now : String), 10 ≤ data.length →
      data.take 2 = [0xFF, 0xD8] → (∀ b ∈ data, b < 256) →
      extract_frames data = [] → pyParse data now = some []) := by
  constructor
  · rintro frames objs now (rfl | rfl)
    · rfl
    · unfold build_violation
      simp
  · intro data now hlen htake hb hframes
    obtain ⟨t, ht⟩ := decode_data_total (extract_json data)
      (fun b hbm => hb b (extract_json_sub b hbm))
    have hval : validate_input data = .ok () := by
      unfold validate_input
      rw [if_neg (by omega)]
      have hbe : (data.take 2 == [(0xFF : Nat), 0xD8]) = true := by
        rw [htake]
        rfl
      rw [hbe]
      rfl
    unfold pyParse parseE parse_json
    rw [hval, ht, hframes]
    rfl

/-- Witness for C2 amended: the concrete zero-frame input. -/
theorem C2_insufficient_data_amended_witness :
    pyParse [0xFF, 0xD8, 0, 0, 0, 0, 0, 0, 0, 0] "X" = some [] :=
  C2_insufficient_data_amended.2 [0xFF, 0xD8, 0, 0, 0, 0, 0, 0, 0, 0] "X"
    (by norm_num) (by decide) (by decide) (by decide)

/-! ### The catch-all of `parse` (C10) -/

/-- C10: the public `parse` never propagates an exception — modelling raised
exceptions as the `Except.error` results of `parseE`, every error of the
pipeline body is caught and surfaced as `None`, every normal result as a
value; and `parse` returns `None` exactly when one of the only two raising
stages fires (input validation, metadata decoding). -/
theorem C10_parse_catches_all (data : List Nat) (now : String) :
    (∀ e, parseE data now = .error e → pyParse data now = none) ∧
    (∀ r, parseE data now = .ok r → pyParse data now = some r) ∧
    (pyParse data now = none ↔
      (data.length < 10 ∨ data.take 2 ≠ [0xFF, 0xD8] ∨
        ∃ e, decode_data (extract_json data) = .error e)) := by
  refine ⟨?_, ?_, ?_⟩
  · intro e he
    unfold pyParse
    rw [he]
  · intro r hr
    unfold pyParse
    rw [hr]
  · by_cases h1 : data.length < 10
    · have hp : pyParse data now = none := by
        unfold pyParse parseE validate_input
        rw [if_pos h1]
      simp [hp, h1]
    · by_cases h2 : data.take 2 = [0xFF, 0xD8]
      · have hbe : (!(data.take 2 == [(0xFF : Nat), 0xD8])) = false := by
          rw [h2]
          rfl
        cases hdec : decode_data (extract_json data) with
        | ok t =>
          have hp : pyParse data now = some (ensure_serializable
              (build_violation (extract_frames data) (splitObjects t) now)) := by
            unfold pyParse parseE parse_json validate_input
            rw [if_neg h1, hbe]
            simp [hdec]
          rw [hp]
          simp [h1, h2, hdec]
        | error e =>
          have hp : pyParse data now = none := by
            unfold pyParse parseE parse_json validate_input
            rw [if_neg h1, hbe]
            simp [hdec]
          rw [hp]
          simp [h1, h2, hdec]
      · have hbe : (!(data.take 2 == [(0xFF : Nat), 0xD8])) = true := by
          simp [h2]
        have hp : pyParse data now = none := by
          unfold pyParse parseE validate_input
          rw [if_neg h1]
          simp [hbe]
        rw [hp]
        simp [h1, h2]

/-- Witness for C10: the empty input fails validation and surfaces as `None`. -/
theorem C10_parse_catches_all_witness :
    pyParse [] "X" = none :=
  (C10_parse_catches_all [] "X").2.2.mpr (Or.inl (by norm_num))

/-! ### Parser locality lemmas (for C4)

A successful parse is determined by the consumed prefix: appending extra
input after the consumed part leaves the result unchanged (with the remainder
extended), except for a numeral ending flush at the end of input, which is
the one maximal-munch token — hence the guard `r ≠ []` there. -/

theorem skipWs_append_cons {a : List Char} {c : Char} {cs : List Char}
    (h : skipWs a = c :: cs) (b : List Char) :
    skipWs (a ++ b) = c :: (cs ++ b) := by
  induction a with
  | nil => simp [skipWs] at h
  | cons x xs ih =>
    rw [skipWs] at h
    by_cases hx : isWsC x
    · rw [hx] at h
      simp only [List.cons_append, skipWs, hx, if_true]
      exact ih h
    · simp only [hx, if_false] at h
      cases h
      simp [skipWs, hx]

theorem parseStrBody_append {a : List Char} {s r : List Char}
    (h : parseStrBody a = some (s, r)) (b : List Char) :
    parseStrBody (a ++ b) = some (s, r ++ b) := by
  induction a generalizing s with
  | nil => simp [parseStrBody] at h
  | cons c cs ih =>
    rw [parseStrBody] at h
    simp only [List.cons_append, parseStrBody]
    by_cases h1 : c = '"'
    · simp only [h1, if_true] at h ⊢
      cases h
      rfl
    · simp only [h1, if_false] at h ⊢
      by_cases h2 : c = '\\'
      · simp [h2] at h
      · simp only [h2, if_false] at h ⊢
        cases hs : parseStrBody cs with
        | none => simp [hs] at h
        | some p =>
          obtain ⟨s2, r2⟩ := p
          simp only [hs] at h
          cases h
          simp [List.append_eq, ih hs]

theorem spanDigits_append {a d r : List Char}
    (h : spanDigits a = (d, r)) (hr : r ≠ []) (b : List Char) :
    spanDigits (a ++ b) = (d, r ++ b) := by
  induction a generalizing d with
  | nil =>
    rw [spanDigits] at h
    cases h
    exact absurd rfl hr
  | cons c cs ih =>
    rw [spanDigits] at h
    simp only [List.cons_append, spanDigits]
    by_cases hc : isDig c
    · simp only [hc, if_true] at h ⊢
      cases hs : spanDigits cs with
      | mk d2 r2 =>
        simp only [hs] at h
        cases h
        simp [List.append_eq, ih hs]
    · simp only [hc, if_false] at h ⊢
      cases h
      simp

theorem parseNumTok_append {a : List Char} {n : Int} {r : List Char}
    (h : parseNumTok a = some (n, r)) (hr : r ≠ []) (b : List Char) :
    parseNumTok (a ++ b) = some (n, r ++ b) := by
  cases a with
  | nil => simp [parseNumTok] at h
  | cons c cs =>
    rw [parseNumTok] at h
    rw [List.cons_append, parseNumTok]
    by_cases hc : c = '-'
    · simp only [hc, if_true] at h ⊢
      cases hs : spanDigits cs with
      | mk d2 r2 =>
        simp only [hs] at h
        cases d2 with
        | nil => simp at h
        | cons x xs =>
          simp only [Option.some.injEq, Prod.mk.injEq] at h
          obtain ⟨rfl, rfl⟩ := h
          simp only [spanDigits_append hs hr b]
    · simp only [hc, if_false] at h ⊢
      cases hs : spanDigits (c :: cs) with
      | mk d2 r2 =>
        simp only [hs] at h
        cases d2 with
        | nil => simp at h
        | cons x xs =>
          simp only [Option.some.injEq, Prod.mk.injEq] at h
          obtain ⟨rfl, rfl⟩ := h
          have hsa := spanDigits_append hs hr b
          rw [List.cons_append] at hsa
          simp only [hsa]

theorem expectLit_append {pat a r : List Char}
    (h : expectLit pat a = some r) (b : List Char) :
    expectLit pat (a ++ b) = some (r ++ b) := by
  induction pat generalizing a with
  | nil =>
    rw [expectLit] at h
    cases h
    rfl
  | cons p ps ih =>
    cases a with
    | nil => simp [expectLit] at h
    | cons c cs =>
      rw [expectLit] at h
      rw [List.cons_append, expectLit]
      by_cases hc : c = p
      · simp only [hc, if_true] at h ⊢
        exact ih h
      · simp [hc] at h

/-- Fuel monotonicity: one more unit of fuel preserves every successful
parse (joint induction over the three mutually recursive parsers). -/
theorem parser_mono_succ : ∀ fuel : Nat,
    (∀ l v r, parseVal fuel l = some (v, r) → parseVal (fuel + 1) l = some (v, r)) ∧
    (∀ l kvs r, parseMems fuel l = some (kvs, r) → parseMems (fuel + 1) l = some (kvs, r)) ∧
    (∀ l xs r, parseElems fuel l = some (xs, r) → parseElems (fuel + 1) l = some (xs, r)) := by
  intro fuel
  induction fuel with
  | zero =>
    refine ⟨?_, ?_, ?_⟩ <;> intro l a r h <;>
      simp [parseVal, parseMems, parseElems] at h
  | succ fuel ih =>
    obtain ⟨ihV, ihM, ihE⟩ := ih
    refine ⟨?_, ?_, ?_⟩
    · intro l v r h
      rw [parseVal] at h ⊢
      cases hws : skipWs l with
      | nil => simp [hws] at h
      | cons c cs =>
        simp only [hws] at h ⊢
        by_cases h1 : c = lb
        · simp only [h1, if_true] at h ⊢
          cases hws2 : skipWs cs with
          | nil => simp [hws2] at h
          | cons c2 cs2 =>
            simp only [hws2] at h ⊢
            by_cases h2 : c2 = rb
            · simp only [h2, if_true] at h ⊢
              exact h
            · simp only [h2, if_false] at h ⊢
              cases hm : parseMems fuel (c2 :: cs2) with
              | none => simp [hm] at h
              | some p =>
                obtain ⟨kvs, r2⟩ := p
                simp only [hm] at h
                simp only [ihM _ _ _ hm]
                exact h
        · simp only [h1, if_false] at h ⊢
          by_cases h2 : c = '['
          · simp only [h2, if_true] at h ⊢
            cases hws2 : skipWs cs with
            | nil => simp [hws2] at h
            | cons c2 cs2 =>
              simp only [hws2] at h ⊢
              by_cases h3 : c2 = ']'
              · simp only [h3, if_true] at h ⊢
                exact h
              · simp only [h3, if_false] at h ⊢
                cases he : parseElems fuel (c2 :: cs2) with
                | none => simp [he] at h
                | some p =>
                  obtain ⟨xs, r2⟩ := p
                  simp only [he] at h
                  simp only [ihE _ _ _ he]
                  exact h
          · simp only [h2, if_false] at h ⊢
            by_cases h3 : c = '"'
            · simp only [h3, if_true] at h ⊢
              exact h
            · simp only [h3, if_false] at h ⊢
              by_cases h4 : c = 't'
              · simp only [h4, if_true] at h ⊢
                exact h
              · simp only [h4, if_false] at h ⊢
                by_cases h5 : c = 'f'
                · simp only [h5, if_true] at h ⊢
                  exact h
                · simp only [h5, if_false] at h ⊢
                  by_cases h6 : c = 'n'
                  · simp only [h6, if_true] at h ⊢
                    exact h
                  · simp only [h6, if_false] at h ⊢
                    by_cases h7 : (decide (c = '-') || isDig c) = true
                    · simp only [h7, if_true] at h ⊢
                      exact h
                    · simp [h7] at h
    · intro l kvs r h
      rw [parseMems] at h ⊢
      cases hws : skipWs l with
      | nil => simp [hws] at h
      | cons c cs =>
        simp only [hws] at h ⊢
        by_cases h1 : c = '"'
        · simp only [h1, if_true] at h ⊢
          cases hsb : parseStrBody cs with
          | none => simp [hsb] at h
          | some p =>
            obtain ⟨k, r1⟩ := p
            simp only [hsb] at h ⊢
            cases hws2 : skipWs r1 with
            | nil => simp [hws2] at h
            | cons c2 r2 =>
              simp only [hws2] at h ⊢
              by_cases h2 : c2 = ':'
              · simp only [h2, if_true] at h ⊢
                cases hv : parseVal fuel r2 with
                | none => simp [hv] at h
                | some p2 =>
                  obtain ⟨v2, r3⟩ := p2
                  simp only [hv] at h
                  simp only [ihV _ _ _ hv]
                  cases hws3 : skipWs r3 with
                  | nil => simp [hws3] at h
                  | cons c3 r4 =>
                    simp only [hws3] at h ⊢
                    by_cases h3 : c3 = ','
                    · simp only [h3, if_true] at h ⊢
                      cases hm : parseMems fuel r4 with
                      | none => simp [hm] at h
                      | some p3 =>
                        obtain ⟨kvs2, r5⟩ := p3
                        simp only [hm] at h
                        simp only [ihM _ _ _ hm]
                        exact h
                    · simp only [h3, if_false] at h ⊢
                      by_cases h4 : c3 = rb
                      · simp only [h4, if_true] at h ⊢
                        exact h
                      · simp [h4] at h
              · simp [h2] at h
        · simp [h1] at h
    · intro l xs r h
      rw [parseElems] at h ⊢
      cases hv : parseVal fuel l with
      | none => simp [hv] at h
      | some p =>
        obtain ⟨v2, r2⟩ := p
        simp only [hv] at h
        simp only [ihV _ _ _ hv]
        cases hws : skipWs r2 with
        | nil => simp [hws] at h
        | cons c r3 =>
          simp only [hws] at h ⊢
          by_cases h1 : c = ','
          · simp only [h1, if_true] at h ⊢
            cases he : parseElems fuel r3 with
            | none => simp [he] at h
            | some p2 =>
              obtain ⟨xs2, r4⟩ := p2
              simp only [he] at h
              simp only [ihE _ _ _ he]
              exact h
          · simp only [h1, if_false] at h ⊢
            by_cases h2 : c = ']'
            · simp only [h2, if_true] at h ⊢
              exact h
            · simp [h2] at h

/-- Fuel monotonicity for `parseVal`, arbitrary increase. -/
theorem parseVal_mono {f g : Nat} {l : List Char} {v : Json} {r : List Char}
    (hfg : f ≤ g) (h : parseVal f l = some (v, r)) : parseVal g l = some (v, r) := by
  induction g with
  | zero =>
    have : f = 0 := by omega
    subst this
    exact h
  | succ g ih =>
    rcases Nat.eq_or_lt_of_le hfg with rfl | hlt
    · exact h
    · exact (parser_mono_succ g).1 _ _ _ (ih (by omega))

/-- Parse locality for the mutually recursive parsers: appending input after
a successful parse extends the remainder and nothing else.  For `parseVal`
the guard excludes the one maximal-munch case (a numeral flush at the end of
the input); object/array/string/keyword parses are delimiter-terminated and
unconditional. -/
theorem parser_append : ∀ fuel : Nat,
    (∀ l v r b, parseVal fuel l = some (v, r) → (r ≠ [] ∨ v.isNum = false) →
      parseVal fuel (l ++ b) = some (v, r ++ b)) ∧
    (∀ l kvs r b, parseMems fuel l = some (kvs, r) →
      parseMems fuel (l ++ b) = some (kvs, r ++ b)) ∧
    (∀ l xs r b, parseElems fuel l = some (xs, r) →
      parseElems fuel (l ++ b) = some (xs, r ++ b)) := by
  intro fuel
  induction fuel with
  | zero =>
    refine ⟨?_, ?_, ?_⟩ <;> intro l a r b h <;>
      simp [parseVal, parseMems, parseElems] at h
  | succ fuel ih =>
    obtain ⟨ihV, ihM, ihE⟩ := ih
    refine ⟨?_, ?_, ?_⟩
    · intro l v r b h hguard
      rw [parseVal] at h ⊢
      cases hws : skipWs l with
      | nil => simp [hws] at h
      | cons c cs =>
        simp only [hws] at h
        simp only [skipWs_append_cons hws b]
        by_cases h1 : c = lb
        · simp only [h1, if_true] at h ⊢
          cases hws2 : skipWs cs with
          | nil => simp [hws2] at h
          | cons c2 cs2 =>
            simp only [hws2] at h
            simp only [skipWs_append_cons hws2 b]
            by_cases h2 : c2 = rb
            · simp only [h2, if_true] at h ⊢
              cases h
              rfl
            · simp only [h2, if_false] at h ⊢
              cases hm : parseMems fuel (c2 :: cs2) with
              | none => simp [hm] at h
              | some p =>
                obtain ⟨kvs, r2⟩ := p
                simp only [hm] at h
                have hma := ihM (c2 :: cs2) kvs r2 b hm
                rw [List.cons_append] at hma
                simp only [hma]
                cases h
                rfl
        · simp only [h1, if_false] at h ⊢
          by_cases h2 : c = '['
          · simp only [h2, if_true] at h ⊢
            cases hws2 : skipWs cs with
            | nil => simp [hws2] at h
            | cons c2 cs2 =>
              simp only [hws2] at h
              simp only [skipWs_append_cons hws2 b]
              by_cases h3 : c2 = ']'
              · simp only [h3, if_true] at h ⊢
                cases h
                rfl
              · simp only [h3, if_false] at h ⊢
                cases he : parseElems fuel (c2 :: cs2) with
                | none => simp [he] at h
                | some p =>
                  obtain ⟨xs, r2⟩ := p
                  simp only [he] at h
                  have hea := ihE (c2 :: cs2) xs r2 b he
                  rw [List.cons_append] at hea
                  simp only [hea]
                  cases h
                  rfl
          · simp only [h2, if_false] at h ⊢
            by_cases h3 : c = '"'
            · simp only [h3, if_true] at h ⊢
              cases hsb : parseStrBody cs with
              | none => simp [hsb] at h
              | some p =>
                obtain ⟨s2, r2⟩ := p
                simp only [hsb] at h
                simp only [parseStrBody_append hsb b]
                cases h
                rfl
            · simp only [h3, if_false] at h ⊢
              by_cases h4 : c = 't'
              · simp only [h4, if_true] at h ⊢
                cases hex : expectLit ['r', 'u', 'e'] cs with
                | none => simp [hex] at h
                | some r1 =>
                  simp only [hex, Option.map_some'] at h
                  simp only [expectLit_append hex b, Option.map_some']
                  cases h
                  rfl
              · simp only [h4, if_false] at h ⊢
                by_cases h5 : c = 'f'
                · simp only [h5, if_true] at h ⊢
                  cases hex : expectLit ['a', 'l', 's', 'e'] cs with
                  | none => simp [hex] at h
                  | some r1 =>
                    simp only [hex, Option.map_some'] at h
                    simp only [expectLit_append hex b, Option.map_some']
                    cases h
                    rfl
                · simp only [h5, if_false] at h ⊢
                  by_cases h6 : c = 'n'
                  · simp only [h6, if_true] at h ⊢
                    cases hex : expectLit ['u', 'l', 'l'] cs with
                    | none => simp [hex] at h
                    | some r1 =>
                      simp only [hex, Option.map_some'] at h
                      simp only [expectLit_append hex b, Option.map_some']
                      cases h
                      rfl
                  · simp only [h6, if_false] at h ⊢
                    by_cases h7 : (decide (c = '-') || isDig c) = true
                    · simp only [h7, if_true] at h ⊢
                      cases hnt : parseNumTok (c :: cs) with
                      | none => simp [hnt] at h
                      | some p =>
                        obtain ⟨n, r2⟩ := p
                        simp only [hnt, Option.map_some'] at h
                        cases h
                        have hrne : r ≠ [] := by
                          rcases hguard with hg | hg
                          · exact hg
                          · simp [Json.isNum] at hg
                        have hna := parseNumTok_append hnt hrne b
                        rw [List.cons_append] at hna
                        simp only [hna, Option.map_some']
                    · simp [h7] at h
    · intro l kvs r b h
      rw [parseMems] at h ⊢
      cases hws : skipWs l with
      | nil => simp [hws] at h
      | cons c cs =>
        simp only [hws] at h
        simp only [skipWs_append_cons hws b]
        by_cases h1 : c = '"'
        · simp only [h1, if_true] at h ⊢
          cases hsb : parseStrBody cs with
          | none => simp [hsb] at h
          | some p =>
            obtain ⟨k, r1⟩ := p
            simp only [hsb] at h
            simp only [parseStrBody_append hsb b]
            cases hws2 : skipWs r1 with
            | nil => simp [hws2] at h
            | cons c2 r2 =>
              simp only [hws2] at h
              simp only [skipWs_append_cons hws2 b]
              by_cases h2 : c2 = ':'
              · simp only [h2, if_true] at h ⊢
                cases hv : parseVal fuel r2 with
                | none => simp [hv] at h
                | some p2 =>
                  obtain ⟨v2, r3⟩ := p2
                  simp only [hv] at h
                  cases hws3 : skipWs r3 with
                  | nil => simp [hws3] at h
                  | cons c3 r4 =>
                    have hr3 : r3 ≠ [] := by
                      intro hcontra
                      subst hcontra
                      simp [skipWs] at hws3
                    simp only [ihV r2 v2 r3 b hv (Or.inl hr3)]
                    simp only [hws3] at h
                    simp only [skipWs_append_cons hws3 b]
                    by_cases h3 : c3 = ','
                    · simp only [h3, if_true] at h ⊢
                      cases hm : parseMems fuel r4 with
                      | none => simp [hm] at h
                      | some p3 =>
                        obtain ⟨kvs2, r5⟩ := p3
                        simp only [hm] at h
                        simp only [ihM r4 kvs2 r5 b hm]
                        cases h
                        rfl
                    · simp only [h3, if_false] at h ⊢
                      by_cases h4 : c3 = rb
                      · simp only [h4, if_true] at h ⊢
                        cases h
                        rfl
                      · simp [h4] at h
              · simp [h2] at h
        · simp [h1] at h
    · intro l xs r b h
      rw [parseElems] at h ⊢
      cases hv : parseVal fuel l with
      | none => simp [hv] at h
      | some p =>
        obtain ⟨v2, r2⟩ := p
        simp only [hv] at h
        cases hws : skipWs r2 with
        | nil => simp [hws] at h
        | cons c r3 =>
          have hr2 : r2 ≠ [] := by
            intro hcontra
            subst hcontra
            simp [skipWs] at hws
          simp only [ihV l v2 r2 b hv (Or.inl hr2)]
          simp only [hws] at h
          simp only [skipWs_append_cons hws b]
          by_cases h1 : c = ','
          · simp only [h1, if_true] at h ⊢
            cases he : parseElems fuel r3 with
            | none => simp [he] at h
            | some p2 =>
              obtain ⟨xs2, r4⟩ := p2
              simp only [he] at h
              simp only [ihE r3 xs2 r4 b he]
              cases h
              rfl
          · simp only [h1, if_false] at h ⊢
            by_cases h2 : c = ']'
            · simp only [h2, if_true] at h ⊢
              cases h
              rfl
            · simp [h2] at h

/-! ### The brace-depth scan (C4) -/

theorem braceDelta_cases (c : Char) :
    (braceDelta c = 1 ∧ c = lb) ∨ (braceDelta c = -1 ∧ c = rb) ∨
      (braceDelta c = 0 ∧ c ≠ lb ∧ c ≠ rb) := by
  unfold braceDelta
  by_cases h1 : c = lb
  · simp [h1]
  · by_cases h2 : c = rb
    · subst h2
      simp [h1]
    · simp [h1, h2]

theorem depthSum_cons (c : Char) (q : List Char) :
    depthSum (c :: q) = braceDelta c + depthSum q := by
  unfold depthSum
  rw [List.map_cons, List.sum_cons]

/-- A step of the scan strictly inside a fragment (depth stays positive):
the character is appended to the buffer and the depth adjusted, nothing else. -/
theorem fragStep_no_split (acc : List Json) (buf : List Char) (d : Int) (c : Char)
    (h : 0 < d + braceDelta c) :
    fragStep (acc, buf, d) c = (acc, buf ++ [c], d + braceDelta c) := by
  rcases braceDelta_cases c with ⟨hd, rfl⟩ | ⟨hd, rfl⟩ | ⟨hd, h1, h2⟩
  · rw [hd]
    unfold fragStep
    simp
  · rw [hd] at h ⊢
    unfold fragStep
    have hlbrb : ¬(rb = lb) := by decide
    have hne : ¬(d - 1 = 0) := by omega
    simp only [hlbrb, if_false, if_true, hne]
    norm_num
    omega
  · rw [hd]
    unfold fragStep
    simp only [h1, h2, if_false]
    norm_num

/-- The scan from strictly positive depth through the rest of one balanced
fragment: it appends characters until the final closing brace returns the
depth to zero, loads the accumulated buffer (the whole fragment) and resets. -/
theorem frag_scan {v : Json} : ∀ (q buf : List Char) (d : Int) (acc : List Json),
    q ≠ [] → 0 < d → allPos d q = true → d + depthSum q = 0 →
    json_loads (buf ++ q) = some v →
    List.foldl fragStep (acc, buf, d) q = (acc ++ [v], [], 0) := by
  intro q
  induction q with
  | nil => intro buf d acc hne; exact absurd rfl hne
  | cons c q' ih =>
    intro buf d acc _ hd hall hdepth hjl
    by_cases hq'nil : q' = []
    · subst hq'nil
      rw [depthSum_cons] at hdepth
      have hds : depthSum ([] : List Char) = 0 := rfl
      rw [hds] at hdepth
      rcases braceDelta_cases c with ⟨hbd, rfl⟩ | ⟨hbd, rfl⟩ | ⟨hbd, h1, h2⟩
      · rw [hbd] at hdepth; omega
      · rw [hbd] at hdepth
        have hd1 : d = 1 := by omega
        subst hd1
        simp only [List.foldl_cons, List.foldl_nil]
        unfold fragStep
        have hlbrb : ¬(rb = lb) := by decide
        simp only [hlbrb, if_false, if_true]
        norm_num
        rw [hjl]
      · rw [hbd] at hdepth; omega
    · rw [allPos] at hall
      have hie : q'.isEmpty = false := by simpa [List.isEmpty_iff] using hq'nil
      simp only [hie, Bool.false_or, Bool.and_eq_true, decide_eq_true_eq] at hall
      obtain ⟨hpos, hall'⟩ := hall
      simp only [List.foldl_cons]
      rw [fragStep_no_split acc buf d c hpos]
      refine ih (buf ++ [c]) (d + braceDelta c) acc hq'nil hpos hall' ?_ ?_
      · rw [depthSum_cons] at hdepth
        omega
      · rw [List.append_assoc]
        exact hjl

theorem json_loads_exact {s : List Char} {v : Json}
    (h : parseVal (3 * s.length + 3) s = some (v, [])) :
    json_loads s = some v := by
  unfold json_loads
  rw [h]
  rfl

/-- A prefix-positive text of length at least 2 starts with an opening brace. -/
theorem head_lb {s : List Char} (hpp : prefixPos s = true) (hl : 2 ≤ s.length) :
    ∃ t, s = lb :: t := by
  cases s with
  | nil => simp at hl
  | cons c t =>
    have htne : t ≠ [] := by
      intro hcontra
      subst hcontra
      simp at hl
    unfold prefixPos allPos at hpp
    have hie : t.isEmpty = false := by simpa [List.isEmpty_iff] using htne
    simp only [hie, Bool.false_or, Bool.and_eq_true, decide_eq_true_eq] at hpp
    rcases braceDelta_cases c with ⟨hbd, rfl⟩ | ⟨hbd, rfl⟩ | ⟨hbd, h1, h2⟩
    · exact ⟨t, rfl⟩
    · rw [hbd] at hpp; omega
    · rw [hbd] at hpp; omega

/-- The scan over a direct concatenation of balanced object fragments
collects exactly their parses, in order. -/
theorem frag_concat : ∀ (os : List (List Char)) (vs : List Json),
    List.Forall₂ (fun s v =>
      parseVal (3 * s.length + 3) s = some (v, []) ∧ Json.isObj v = true ∧
      depthSum s = 0 ∧ prefixPos s = true ∧ 2 ≤ s.length) os vs →
    ∀ acc, List.foldl fragStep (acc, [], 0) os.flatten = (acc ++ vs, [], 0) := by
  intro os vs h
  induction h with
  | nil => intro acc; simp
  | cons hc hrest ih =>
    rename_i s v os' vs'
    intro acc
    obtain ⟨hp, hobj, hdepth, hpp, hlen⟩ := hc
    rw [List.flatten_cons, List.foldl_append]
    have hblock : List.foldl fragStep (acc, [], 0) s = (acc ++ [v], [], 0) := by
      obtain ⟨t, rfl⟩ := head_lb hpp hlen
      have htne : t ≠ [] := by
        intro hcontra
        subst hcontra
        simp at hlen
      unfold prefixPos allPos at hpp
      have hie : t.isEmpty = false := by simpa [List.isEmpty_iff] using htne
      simp only [hie, Bool.false_or, Bool.and_eq_true, decide_eq_true_eq] at hpp
      obtain ⟨hpos, hall⟩ := hpp
      simp only [List.foldl_cons]
      rw [show fragStep (acc, [], 0) lb = (acc, [lb], (0 : Int) + braceDelta lb) from
        fragStep_no_split acc [] 0 lb hpos]
      refine frag_scan t [lb] (0 + braceDelta lb) acc htne hpos ?_ ?_ ?_
      · rwa [zero_add]
      · rw [depthSum_cons] at hdepth
        omega
      · rw [show ([lb] ++ t) = lb :: t from rfl]
        exact json_loads_exact hp
    rw [hblock, ih (acc ++ [v])]
    simp

/-- C4: `splitObjects` on the direct concatenation (no separators) of `k`
well-formed, brace-balanced JSON object texts returns exactly `k` objects —
the parses of the original texts, in their order of appearance.  Each `os i`
is required to parse exactly as one JSON object (`parseVal … = some (v, [])`
with `v` an object) and to be brace-balanced in the scanner's character sense
(`depthSum = 0`, with every proper prefix strictly positive). -/
theorem C4_split_concatenated_objects (os : List (List Char)) (vs : List Json)
    (h : List.Forall₂ (fun s v =>
      parseVal (3 * s.length + 3) s = some (v, []) ∧ Json.isObj v = true ∧
      depthSum s = 0 ∧ prefixPos s = true ∧ 2 ≤ s.length) os vs) :
    splitObjects os.flatten = vs := by
  cases os with
  | nil =>
    cases h
    rfl
  | cons s os' =>
    cases h with
    | cons hc hrest =>
      rename_i v vs'
      cases os' with
      | nil =>
        cases hrest
        obtain ⟨hp, hobj, _, _, _⟩ := hc
        have hjl : json_loads s = some v := json_loads_exact hp
        have hflat : (([s] : List (List Char))).flatten = s := by simp
        rw [hflat]
        unfold splitObjects
        rw [hjl]
        cases v <;> simp [Json.isObj] at hobj
        rfl
      | cons s2 os'' =>
        cases hrest with
        | cons hc2 hrest2 =>
          rename_i v2 vs''
          obtain ⟨hp1, hobj1, hd1, hpp1, hl1⟩ := hc
          obtain ⟨hp2, hobj2, hd2, hpp2, hl2⟩ := hc2
          have hflat : ((s :: s2 :: os'') : List (List Char)).flatten =
              s ++ (s2 :: os'').flatten := rfl
          obtain ⟨t2, ht2⟩ := head_lb hpp2 hl2
          have hrest_shape : ((s2 :: os'') : List (List Char)).flatten =
              lb :: (t2 ++ os''.flatten) := by
            rw [List.flatten_cons, ht2]
            rfl
          have hnotnum : Json.isNum v = false := by
            cases v <;> simp [Json.isObj] at hobj1
            rfl
          have hlen_le : 3 * s.length + 3 ≤
              3 * (s ++ (s2 :: os'').flatten).length + 3 := by
            rw [List.length_append]
            omega
          have hmono := parseVal_mono hlen_le hp1
          have happ := (parser_append (3 * (s ++ (s2 :: os'').flatten).length + 3)).1
            s v [] ((s2 :: os'').flatten) hmono (Or.inr hnotnum)
          rw [List.nil_append] at happ
          have hws : wsOnly ((s2 :: os'').flatten) = false := by
            rw [hrest_shape]
            rfl
          have hnone : json_loads (((s :: s2 :: os'') : List (List Char)).flatten) = none := by
            rw [hflat]
            unfold json_loads
            simp only [happ]
            rw [hws]
            rfl
          unfold splitObjects
          rw [hnone]
          unfold parse_fragmented
          rw [frag_concat (s :: s2 :: os'') (v :: v2 :: vs'')
            (List.Forall₂.cons ⟨hp1, hobj1, hd1, hpp1, hl1⟩
              (List.Forall₂.cons ⟨hp2, hobj2, hd2, hpp2, hl2⟩ hrest2)) []]
          rfl

/-- Witness for C4 on the concatenation of the two concrete objects
of the design's §8 scenario. -/
theorem C4_split_concatenated_objects_witness :
    splitObjects (([[lb, '"', 'a', '"', ':', '1', rb],
        [lb, '"', 'b', '"', ':', '2', rb]] : List (List Char)).flatten) =
      [Json.obj [("a", Json.num 1)], Json.obj [("b", Json.num 2)]] := by
  refine C4_split_concatenated_objects _ _ ?_
  refine List.Forall₂.cons ⟨?_, ?_, ?_, ?_, ?_⟩
    (List.Forall₂.cons ⟨?_, ?_, ?_, ?_, ?_⟩ List.Forall₂.nil) <;>
    first
      | rfl
      | decide
